import Mathlib

/-!
Verification development for the Buriram GP simulator.

The repository ships two variants of the pseudo-3D ride engine
(`ride3d.js`), both contained in `directives/app-architecture.md`:

* variant 1 (the "segment-curve-accumulation" engine): hand-laid track via
  `addSegments`, a shared key map `createInput`, `demoAI` synthesising key
  presses, `RideEngine._update` with clamped physics, and `stop()` that
  cancels the frame callback and removes both listeners;

* variant 2 (the "zone-based" engine): `TRACK_ZONES` with sinusoidal
  curvature ramps, an inline demo controller inside `RideEngine.update`,
  `Math.random()`-decorated scenery, and a `stop()` that only clears the
  running flag.

This file embeds both variants shallowly.  JavaScript numbers are modelled
as exact rationals (variant 1 uses only rational constants); the variant-2
curvature values use `Real.sin` exactly as the source formula
`zone.curve * Math.sin(t * Math.PI)` does.  DOM/`requestAnimationFrame`
resources are modelled as a record of booleans tracking what is registered.
Callback invocations (`onLapComplete`, `onCornerEntered`) are recorded in
observation fields (`lapCount`, `cornerLog`) of the state.
-/

namespace Ride

/-! ## Variant 1: constants (ride3d.js, first engine)

`SEGMENT_LENGTH = 200`, `MAX_SPEED = 440`, `ACCELERATION = 3.5`,
`BRAKING = 9`, `DECEL = 2`, `CENTRIFUGAL = 0.3`, `OFFROAD_DECEL = 0.99`,
`RUMBLE_LENGTH = 3`. -/

def SEGMENT_LENGTH : ℚ := 200

def MAX_SPEED : ℚ := 440

def ACCELERATION : ℚ := 7/2

def BRAKING : ℚ := 9

def DECEL : ℚ := 2

def CENTRIFUGAL : ℚ := 3/10

def OFFROAD_DECEL : ℚ := 99/100

/-! ## Variant 1: track construction (`buildTrack`, lines 156-268)

Each `addSegments(count, curve, cornerIndex)` call pushes `count` segments
`{ index: id++, curve, camber, cornerIndex, color: Math.floor(id / RUMBLE_LENGTH) % 2 }`.
Note the object literal evaluates `index: id++` first, so `color` is
computed from the already-incremented `id = index + 1`. -/

structure Seg1 where
  index : ℕ
  curve : ℚ
  camber : ℚ
  cornerIndex : Option ℕ
  color : ℕ
  objLeft : Option (String × ℚ) := none
  objRight : Option (String × ℚ) := none
deriving DecidableEq, Repr

def addSegments (start count : ℕ) (curve : ℚ) (cornerIndex : Option ℕ) : List Seg1 :=
  (List.range count).map fun i =>
    { index := start + i, curve := curve, camber := 0, cornerIndex := cornerIndex,
      color := ((start + i + 1) / 3) % 2 }

def buildFrom (start : ℕ) : List (ℕ × ℚ × Option ℕ) → List Seg1
  | [] => []
  | (count, curve, corner) :: rest =>
      addSegments start count curve corner ++ buildFrom (start + count) rest

/-- The exact sequence of `addSegments` calls in variant 1's `buildTrack`. -/
def trackCalls : List (ℕ × ℚ × Option ℕ) :=
  [ (20, 0, none),
    (8, 1/2, some 1), (12, 5/2, some 1), (8, 1, some 1),
    (15, 0, none),
    (5, -4/5, some 2), (8, -3/2, some 2), (5, -4/5, some 2),
    (55, 0, none),
    (5, 3/10, some 3), (10, 7/2, some 3), (8, 2, some 3), (5, 1/2, some 3),
    (4, -1/2, some 4), (8, -5/2, some 4), (4, -4/5, some 4),
    (18, 0, none),
    (5, 1/2, some 5), (10, 14/5, some 5), (6, 1, some 5),
    (10, 0, none),
    (6, -2/5, some 6), (15, -6/5, some 6), (6, -2/5, some 6),
    (12, 0, none),
    (5, 2/5, some 7), (10, 9/5, some 7), (5, 2/5, some 7),
    (8, 0, none),
    (5, -3/10, some 8), (18, -1, some 8), (5, -3/10, some 8),
    (10, 0, none),
    (5, 1/2, some 9), (12, 11/5, some 9), (5, 1/2, some 9),
    (6, 0, none),
    (4, -1/2, some 10), (10, -2, some 10), (4, -1/2, some 10),
    (18, 0, none),
    (5, 2/5, some 11), (12, 3/2, some 11), (5, 2/5, some 11),
    (20, 0, none),
    (5, -2/5, some 12), (12, -14/5, some 12), (5, -2/5, some 12),
    (12, 0, none) ]

def track1 : List Seg1 := buildFrom 0 trackCalls

/-- Variant 1 segment lookup used throughout `_update` and `demoAI`:
`segments[Math.floor(position / SEGMENT_LENGTH) % segments.length]`. -/
def segAt1 (p : ℚ) : Seg1 :=
  track1.getD ((Int.toNat ⌊p / SEGMENT_LENGTH⌋) % track1.length)
    { index := 0, curve := 0, camber := 0, cornerIndex := none, color := 0 }

/-! ## Variant 1: input (`createInput`, lines 633-641)

The key map is shared between physical key events and `demoAI`; `down`
stores `true`, `up` deletes the entry, `is` tests truthiness. -/

inductive Key where
  | arrowUp
  | arrowDown
  | arrowLeft
  | arrowRight
  | keyD
  | other
deriving DecidableEq, Repr

structure Keys where
  up : Bool
  down : Bool
  left : Bool
  right : Bool
  dkey : Bool
  misc : Bool
deriving DecidableEq, Repr

def Keys.empty : Keys := ⟨false, false, false, false, false, false⟩

def Keys.set (ks : Keys) (k : Key) (b : Bool) : Keys :=
  match k with
  | .arrowUp => { ks with up := b }
  | .arrowDown => { ks with down := b }
  | .arrowLeft => { ks with left := b }
  | .arrowRight => { ks with right := b }
  | .keyD => { ks with dkey := b }
  | .other => { ks with misc := b }

/-! ## Variant 1: demo AI (`demoAI`, lines 644-675)

`demoAI(state, segments, input)` writes its synthesized intents directly
into the shared key map. -/

/-- Target speed: `seg.curve === 0 ? MAX_SPEED*0.9 : |c|>2.5 ? 0.22 :
|c|>1.5 ? 0.38 : |c|>0.5 ? 0.55 : 0.75` (times `MAX_SPEED`). -/
def target1 (c : ℚ) : ℚ :=
  if c = 0 then MAX_SPEED * (9/10)
  else if |c| > 5/2 then MAX_SPEED * (22/100)
  else if |c| > 3/2 then MAX_SPEED * (38/100)
  else if |c| > 1/2 then MAX_SPEED * (55/100)
  else MAX_SPEED * (75/100)

def demoAI1 (speed x position : ℚ) (keys : Keys) : Keys :=
  let seg := segAt1 position
  let targetSpeed := target1 seg.curve
  let k1 : Keys :=
    if speed < targetSpeed then { keys with up := true, down := false }
    else { keys with up := false, down := decide (speed - targetSpeed > 50) }
  let targetX := -seg.curve * (1/2)
  if x < targetX - 1/20 then { k1 with right := true, left := false }
  else if x > targetX + 1/20 then { k1 with left := true, right := false }
  else { k1 with left := false, right := false }

/-! ## Variant 1: engine state and `_update` (lines 619-630, 694-791)

`lapCount`, `dist` and `cornerLog` are observation fields: `lapCount`
counts invocations of the `onLapComplete` callback, `cornerLog` records the
corner ids passed to `onCornerEntered`, and `dist` accumulates the total
distance added to `position` (used to state lap-counting theorems). -/

structure Eng1 where
  position : ℚ
  speed : ℚ
  x : ℚ
  currentCorner : Option ℕ
  showHints : Bool
  demo : Bool
  trackLength : ℚ
  hintTimer : ℕ
  keys : Keys
  lapCount : ℕ
  dist : ℚ
  cornerLog : List ℕ
deriving DecidableEq, Repr

/-- `init(canvas, corners)`: fresh `createState()` with
`trackLength = segments.length * SEGMENT_LENGTH` and listeners bound. -/
def init1 : Eng1 :=
  { position := 0, speed := 0, x := 0, currentCorner := none,
    showHints := true, demo := false,
    trackLength := (track1.length : ℚ) * SEGMENT_LENGTH,
    hintTimer := 300, keys := Keys.empty,
    lapCount := 0, dist := 0, cornerLog := [] }

/-- The key map actually read by `_update`'s physics: when demo mode is on,
`demoAI` has just written into the shared map. -/
def effKeys1 (e : Eng1) : Keys :=
  if e.demo then demoAI1 e.speed e.x e.position e.keys else e.keys

/-- Speed physics of `_update` (lines 754-758): three sequential clamped
updates driven by the ArrowUp/ArrowDown entries of the key map. -/
def speedStep1 (up down : Bool) (sp : ℚ) : ℚ :=
  let sp1 := if up then min (sp + ACCELERATION) MAX_SPEED else sp
  let sp2 := if down then max (sp1 - BRAKING) 0 else sp1
  if ¬up ∧ ¬down then max (sp2 - DECEL) 0 else sp2

/-- Steering of `_update` (lines 763-765): lateral offset clamped to
`[-2.5, 2.5]`, with responsiveness proportional to the new speed. -/
def steerStep1 (l r : Bool) (sp x : ℚ) : ℚ :=
  let steerAmt := (4/1000 : ℚ) * (sp / MAX_SPEED)
  let x1 := if l then max (x - steerAmt) (-5/2) else x
  if r then min (x1 + steerAmt) (5/2) else x1

/-- One `_update()` call of variant 1 (lines 744-791), in source order:
demo-AI key synthesis, speed physics, steering, centrifugal drift,
off-road deceleration, position advance with wrap, corner detection,
hint timer. -/
def tick1 (e : Eng1) : Eng1 :=
  let ks := effKeys1 e
  let sp3 := speedStep1 ks.up ks.down e.speed
  let seg := segAt1 e.position
  let x3 := steerStep1 ks.left ks.right sp3 e.x
    - seg.curve * CENTRIFUGAL * (sp3 / MAX_SPEED) * (1/100)
  let sp4 := if |x3| > 1 then sp3 * OFFROAD_DECEL else sp3
  let p1 := e.position + sp4
  let lapped := p1 ≥ e.trackLength
  let p2 := if p1 ≥ e.trackLength then p1 - e.trackLength else p1
  let p3 := if p2 < 0 then 0 else p2
  let cc := seg.cornerIndex
  let fired := cc ≠ e.currentCorner ∧ cc.isSome
  { position := p3, speed := sp4, x := x3, currentCorner := cc,
    showHints := if e.hintTimer > 0 then e.showHints else false,
    demo := e.demo, trackLength := e.trackLength,
    hintTimer := if e.hintTimer > 0 then e.hintTimer - 1 else e.hintTimer,
    keys := ks,
    lapCount := e.lapCount + (if lapped then 1 else 0),
    dist := e.dist + sp4,
    cornerLog := e.cornerLog ++ (if fired then [cc.getD 0] else []) }

/-- `_onKeyDown`: `input.down(e.key)`, and `d` toggles demo mode. -/
def keyDown1 (k : Key) (e : Eng1) : Eng1 :=
  let e1 := { e with keys := e.keys.set k true }
  if k = .keyD then { e1 with demo := ¬e1.demo } else e1

/-- `_onKeyUp`: `input.up(e.key)` (deleting a key is reading back `false`). -/
def keyUp1 (k : Key) (e : Eng1) : Eng1 :=
  { e with keys := e.keys.set k false }

/-- Environment events driving variant 1: key events arrive between frames,
`tick` is one `_update` call of the frame loop. -/
inductive Ev where
  | keyDownEv (k : Key)
  | keyUpEv (k : Key)
  | tick
deriving DecidableEq, Repr

def stepEv (e : Eng1) : Ev → Eng1
  | .keyDownEv k => keyDown1 k e
  | .keyUpEv k => keyUp1 k e
  | .tick => tick1 e

/-- A run of variant 1 from `init` under a sequence of environment events. -/
def run1 (evs : List Ev) : Eng1 := evs.foldl stepEv init1

/-! ## Variant 1: fixed-speed corner scan

The corner/lap part of `_update` (lines 761-786) with the speed held at a
constant `v`, as used by testable property 3 ("tested at multiple fixed
speeds"): each tick reads the segment under the current position, advances
the position by `v` with a single wrap, recomputes `currentCorner` from
that segment and emits the corner id exactly when it changed to a non-null
value. -/

def trackLen1 : ℚ := (track1.length : ℚ) * SEGMENT_LENGTH

/-- Emission rule of lines 782-786: fire iff the recomputed corner differs
from the previous one and is non-null. -/
def emit (prev cur : Option ℕ) : List ℕ :=
  if cur ≠ prev ∧ cur.isSome then [cur.getD 0] else []

/-- Edge-triggered event stream extracted from a per-tick corner sequence. -/
def events : Option ℕ → List (Option ℕ) → List ℕ
  | _, [] => []
  | prev, c :: rest => emit prev c ++ events c rest

def tickFixed (v : ℚ) : ℚ × Option ℕ × List ℕ → ℚ × Option ℕ × List ℕ :=
  fun st =>
    let p := st.1
    let seg := segAt1 p
    let p1 := p + v
    let p2 := if p1 ≥ trackLen1 then p1 - trackLen1 else p1
    let cc := seg.cornerIndex
    (p2, cc, st.2.2 ++ emit st.2.1 cc)

/-- `n` fixed-speed ticks from the start line with empty log. -/
def scanFixed (v : ℚ) : ℕ → ℚ × Option ℕ × List ℕ
  | 0 => (0, none, [])
  | n + 1 => tickFixed v (scanFixed v (n : ℕ))

/-- Number of ticks in the first full lap at fixed speed `v`: the wrap
fires on the tick whose advance reaches `trackLen1`. -/
def lapTicks (v : ℚ) : ℕ := (⌈trackLen1 / v⌉).toNat

/-- First-match interval lookup, used to describe the corner zones of the
built track as position ranges. -/
def zFind : List (ℕ × ℚ × ℚ) → ℚ → Option ℕ
  | [], _ => none
  | (i, a, b) :: rest, q => if a ≤ q ∧ q < b then some i else zFind rest q

/-- Interval lookup over segment indices. -/
def zFindSeg : List (ℕ × ℕ × ℕ) → ℕ → Option ℕ
  | [], _ => none
  | (i, a, b) :: rest, n => if a ≤ n ∧ n < b then some i else zFindSeg rest n

/-- The twelve corner zones of variant 1's track as half-open segment-index
intervals (first segment, one past the last segment). -/
def zones1seg : List (ℕ × ℕ × ℕ) :=
  [ (1, 20, 48), (2, 63, 81), (3, 136, 164), (4, 164, 180),
    (5, 198, 219), (6, 229, 256), (7, 268, 288), (8, 296, 324),
    (9, 334, 356), (10, 362, 380), (11, 398, 420), (12, 440, 462) ]

/-- The same zones as half-open position intervals (world units). -/
def zones1 : List (ℕ × ℚ × ℚ) :=
  zones1seg.map (fun z => (z.1, SEGMENT_LENGTH * (z.2.1 : ℚ), SEGMENT_LENGTH * (z.2.2 : ℚ)))

/-- State invariant of the variant-1 engine: bounded speed, position inside
the track, the construction-time track length, and the lap accounting
identity relating lap count, position and accumulated distance. -/
def Inv1 (e : Eng1) : Prop :=
  0 ≤ e.speed ∧ e.speed ≤ MAX_SPEED ∧ 0 ≤ e.position ∧ e.position < trackLen1 ∧
    e.trackLength = trackLen1 ∧ (e.lapCount : ℚ) * trackLen1 + e.position = e.dist

/-- Corner id under the vehicle at tick `j` of a fixed-speed run: the
segment at position `j * v`. -/
def cAt (v : ℚ) (j : ℕ) : Option ℕ := (segAt1 ((j : ℚ) * v)).cornerIndex

/-- Well-formedness of an interval list for a fixed-speed lap of `N` ticks
covering positions up to `NQ = N * v`: intervals are nonnegative, longer
than one step `v`, inside the lap, ordered, and adjacent intervals carry
distinct ids. -/
def ZonesOK (v NQ : ℚ) : List (ℕ × ℚ × ℚ) → Prop
  | [] => True
  | (i, a, b) :: rest =>
      0 ≤ a ∧ a + v ≤ b ∧ b ≤ NQ ∧
      (match rest with
       | [] => True
       | (i2, a2, _) :: _ => b ≤ a2 ∧ i ≠ i2) ∧
      ZonesOK v NQ rest

/-! ## Variant 2: constants (lines 922-934) -/

noncomputable def SEGMENT_LENGTH2 : ℝ := 200

noncomputable def MAX_SPEED2 : ℝ := 450

noncomputable def ACCELERATION2 : ℝ := 16/5

noncomputable def BRAKING2 : ℝ := 12

noncomputable def DECEL2 : ℝ := 5/2

noncomputable def CENTRIFUGAL2 : ℝ := 7/20

noncomputable def OFFROAD_DECEL2 : ℝ := 24/25

/-! ## Variant 2: track schema (`TRACK_ZONES`, lines 977-1003) -/

inductive ZoneType where
  | straight
  | corner
deriving DecidableEq, Repr

structure Zone where
  type : ZoneType
  len : ℤ
  curve : ℚ := 0
  id : Option ℕ := none
deriving DecidableEq, Repr

def TRACK_ZONES : List Zone :=
  [ { type := .straight, len := 50 },
    { type := .corner, len := 35, curve := 8/5, id := some 1 },
    { type := .straight, len := 20 },
    { type := .corner, len := 25, curve := -1/5, id := some 2 },
    { type := .straight, len := 140 },
    { type := .corner, len := 45, curve := 21/10, id := some 3 },
    { type := .straight, len := 15 },
    { type := .corner, len := 30, curve := -6/5, id := some 4 },
    { type := .straight, len := 20 },
    { type := .corner, len := 35, curve := 13/10, id := some 5 },
    { type := .straight, len := 10 },
    { type := .corner, len := 40, curve := -9/10, id := some 6 },
    { type := .straight, len := 25 },
    { type := .corner, len := 30, curve := 4/5, id := some 7 },
    { type := .straight, len := 15 },
    { type := .corner, len := 45, curve := -7/10, id := some 8 },
    { type := .straight, len := 15 },
    { type := .corner, len := 30, curve := 3/2, id := some 9 },
    { type := .straight, len := 5 },
    { type := .corner, len := 30, curve := -7/5, id := some 10 },
    { type := .straight, len := 35 },
    { type := .corner, len := 30, curve := 9/10, id := some 11 },
    { type := .straight, len := 20 },
    { type := .corner, len := 40, curve := -9/5, id := some 12 },
    { type := .straight, len := 20 } ]

/-- Locate segment `n` inside a zone list: the zone containing it and the
within-zone loop index `i`. -/
def zoneHit : List Zone → ℕ → Option (Zone × ℕ)
  | [], _ => none
  | z :: rest, n => if n < z.len.toNat then some (z, n) else zoneHit rest (n - z.len.toNat)

/-- Total number of segments a zone list builds (a zone with `len ≤ 0`
contributes no loop iterations). -/
def numSegs (zones : List Zone) : ℕ := (zones.map (fun z => z.len.toNat)).sum

def numSegs2 : ℕ := numSegs TRACK_ZONES

/-- Per-segment curvature of variant 2's `buildTrack` (lines 1012-1017):
`zone.curve * Math.sin((i / zone.len) * Math.PI)` on corner zones, `0` on
straights. -/
noncomputable def zoneCurve (z : Zone) (i : ℕ) : ℝ :=
  if z.type = .corner then (z.curve : ℝ) * Real.sin ((i : ℝ) / (z.len : ℝ) * Real.pi) else 0

/-- The continuous curvature ramp named by the spec:
`peakCurvature * sin(t * π)` at relative position `t` inside a zone. -/
noncomputable def curveFormula (peak t : ℝ) : ℝ := peak * Real.sin (t * Real.pi)

def zoneCornerIdx (z : Zone) : Option ℕ := if z.type = .corner then z.id else none

/-- Curvature of segment `n` of the variant-2 track. -/
noncomputable def curveAt2 (n : ℕ) : ℝ :=
  match zoneHit TRACK_ZONES n with
  | none => 0
  | some (z, i) => zoneCurve z i

/-- Corner id of segment `n` of a variant-2 track. -/
def cornerIdxAt (zones : List Zone) (n : ℕ) : Option ℕ :=
  match zoneHit zones n with
  | none => none
  | some (z, _) => zoneCornerIdx z

def cornerAt2 (n : ℕ) : Option ℕ := cornerIdxAt TRACK_ZONES n

/-! ## Variant 2: full segment construction (`buildTrack`, lines 1005-1047)

`Math.random()` has no seed; it is modelled as an ambient stream
`rand : ℕ → ℚ` of draws in `[0,1)`, consumed left to right exactly where
the source calls it: one draw per corner segment with within-zone index
`i < 10` (the `skid` field), then during the object pass two draws per
tree placement. -/

structure Obj where
  type : String
  offset : ℚ
deriving DecidableEq, Repr

structure Seg2 where
  index : ℕ
  curve : ℝ
  cornerIndex : Option ℕ
  color : ℕ
  skid : Bool
  objects : List Obj

/-- Number of `Math.random()` draws the first loop makes inside one zone. -/
def zoneDraws (z : Zone) : ℕ := if z.type = .corner then min z.len.toNat 10 else 0

noncomputable def buildZone (z : Zone) (startIdx rctr : ℕ) (rand : ℕ → ℚ) : List Seg2 :=
  (List.range z.len.toNat).map fun i =>
    { index := startIdx + i,
      curve := zoneCurve z i,
      cornerIndex := zoneCornerIdx z,
      color := ((startIdx + i + 1) / 3) % 2,
      skid := if z.type = .corner ∧ i < 10 then decide (rand (rctr + i) < 3/10) else false,
      objects := [] }

noncomputable def buildZones : List Zone → ℕ → ℕ → (ℕ → ℚ) → List Seg2
  | [], _, _, _ => []
  | z :: rest, startIdx, rctr, rand =>
      buildZone z startIdx rctr rand ++
        buildZones rest (startIdx + z.len.toNat) (rctr + zoneDraws z) rand

def totalDraws (zones : List Zone) : ℕ := (zones.map zoneDraws).sum

/-- The object-population pass (`segments.forEach`, lines 1031-1044):
trees every 8th segment with a random side and random offset jitter,
grandstands on every 15th segment of the start/back/final sections,
sponsor boards on every 10th segment inside corner zones. -/
noncomputable def populateSegs (rand : ℕ → ℚ) (total : ℕ) :
    List Seg2 → ℕ → ℕ → List Seg2
  | [], _, _ => []
  | s :: rest, i, rctr =>
      let treeObjs : List Obj :=
        if i % 8 = 0 then
          [⟨"tree", (if rand rctr > 1/2 then 9/5 else -9/5) + rand (rctr + 1) * (1/2)⟩]
        else []
      let rctr2 := if i % 8 = 0 then rctr + 2 else rctr
      let standObjs : List Obj :=
        if (i < 60 ∨ (250 < i ∧ i < 350) ∨ i + 100 > total) ∧ i % 15 = 0 then
          [⟨"grandstand", -5/2⟩]
        else []
      let sponsorObjs : List Obj :=
        if s.cornerIndex.isSome ∧ i % 10 = 0 then [⟨"sponsor", 13/10⟩] else []
      { s with objects := treeObjs ++ standObjs ++ sponsorObjs } ::
        populateSegs rand total rest (i + 1) rctr2

/-- Variant 2's full `buildTrack()` over an arbitrary zone list (the source
iterates the module constant `TRACK_ZONES`; the zone list is the
construction input named by the spec's `buildTrack(zoneSpecification)`
contract). -/
noncomputable def buildTrack2At (zones : List Zone) (rand : ℕ → ℚ) : List Seg2 :=
  let raw := buildZones zones 0 0 rand
  populateSegs rand raw.length raw 0 (totalDraws zones)

noncomputable def buildTrack2 (rand : ℕ → ℚ) : List Seg2 := buildTrack2At TRACK_ZONES rand

/-- The frame loop's segment lookup
`this.segments[Math.floor(s.position / SEGMENT_LENGTH) % this.segments.length]`
as a fallible access (in JavaScript an out-of-range index, or `% 0`
producing `NaN`, yields `undefined` and the subsequent field access
throws). -/
noncomputable def segAt2At (zones : List Zone) (rand : ℕ → ℚ) (p : ℝ) : Option Seg2 :=
  (buildTrack2At zones rand).get? ((Int.toNat ⌊p / SEGMENT_LENGTH2⌋) % numSegs zones)

/-! ## Variant 2: engine state and `update()` (lines 1154-1251) -/

structure Eng2 where
  position : ℝ
  speed : ℝ
  x : ℝ
  currentCorner : Option ℕ
  trackLength : ℝ
  demo : Bool
  keys : Keys
  lapCount : ℕ
  dist : ℝ

noncomputable def init2 : Eng2 :=
  { position := 0, speed := 0, x := 0, currentCorner := none,
    trackLength := (numSegs2 : ℝ) * SEGMENT_LENGTH2, demo := false,
    keys := Keys.empty, lapCount := 0, dist := 0 }

/-- One `update()` call of variant 2 (lines 1208-1251), in source order:
demo controller or human controls, centrifugal force, off-road penalty,
position advance with wrap (note the strict `>` comparison), and the
level-held `currentCorner` assignment. -/
noncomputable def tick2 (e : Eng2) : Eng2 :=
  let segIdx := (Int.toNat ⌊e.position / SEGMENT_LENGTH2⌋) % numSegs2
  let curve := curveAt2 segIdx
  let spx : ℝ × ℝ :=
    if e.demo then
      let targetX := -curve * (4/10)
      let xa := if e.x < targetX then e.x + 5/100 else e.x
      let xb := if xa > targetX then xa - 5/100 else xa
      let curveLimit := |curve|
      let targetSpeed := if curveLimit > 1 then (120 : ℝ) else MAX_SPEED2
      let sp := if e.speed < targetSpeed then e.speed + ACCELERATION2 else e.speed - BRAKING2
      (sp, xb)
    else
      let sp :=
        if e.keys.up then min (e.speed + ACCELERATION2) MAX_SPEED2
        else if e.keys.down then max (e.speed - BRAKING2) 0
        else max (e.speed - DECEL2) 0
      let steer := (5/1000 : ℝ) * (sp / MAX_SPEED2)
      let xa := if e.keys.left then e.x - steer else e.x
      let xb := if e.keys.right then xa + steer else xa
      (sp, xb)
  let sp1 := spx.1
  let x1 := spx.2
  let x2 := x1 - curve * CENTRIFUGAL2 * (sp1 / MAX_SPEED2) * (1/100)
  let sp2 := if |x2| > 1 then sp1 * OFFROAD_DECEL2 else sp1
  let p1 := e.position + sp2
  let lapped := p1 > e.trackLength
  let p2 := if p1 > e.trackLength then p1 - e.trackLength else p1
  { position := p2, speed := sp2, x := x2,
    currentCorner := cornerAt2 segIdx,
    trackLength := e.trackLength, demo := e.demo, keys := e.keys,
    lapCount := e.lapCount + (if lapped then 1 else 0),
    dist := e.dist + sp2 }

/-- Variant 2's demo target speed as a function of the current segment's
curvature (line 1220): `curveLimit > 1.0 ? 120 : MAX_SPEED`. -/
noncomputable def target2 (c : ℝ) : ℝ := if |c| > 1 then 120 else MAX_SPEED2

/-! ## Lifecycle resources (C9)

What `init`/`start`/`stop` acquire and release, tracked as booleans:
whether the frame loop is running, whether a frame callback is pending,
and whether each of the two key listeners is registered. -/

structure Res where
  running : Bool
  rafPending : Bool
  keydownListener : Bool
  keyupListener : Bool
deriving DecidableEq, Repr

/-- Variant 1 `init`: binds both listeners (lines 703-704). -/
def init1Res : Res := ⟨false, false, true, true⟩

/-- Variant 1 `start` + `_loop`: sets running and schedules a frame. -/
def start1Res (r : Res) : Res := { r with running := true, rafPending := true }

/-- Variant 1 `stop()` (lines 724-729): clears running, cancels the pending
frame callback, removes both listeners. -/
def stop1Res (_ : Res) : Res := ⟨false, false, false, false⟩

/-- Variant 2 `init`: binds both (anonymous) listeners (lines 1185-1189). -/
def init2Res : Res := ⟨false, false, true, true⟩

def start2Res (r : Res) : Res := { r with running := true, rafPending := true }

/-- Variant 2 `stop()` (lines 1197-1199): only `this.running = false`. -/
def stop2Res (r : Res) : Res := { r with running := false }

/-! ## Variant 1: roadside scenery (`buildScenery`, lines 271-296)

The function reads no random source at all: every placement index and
offset is a literal.  It is still given the ambient `Math.random` stream
as a parameter (which it never consumes) so that determinism across runs
is a statable hyperproperty. -/

def modifySeg : List Seg1 → ℕ → (Seg1 → Seg1) → List Seg1
  | [], _, _ => []
  | s :: rest, 0, f => f s :: rest
  | s :: rest, n + 1, f => s :: modifySeg rest n f

def palmPositions : List ℕ :=
  [5, 10, 14, 19, 60, 65, 70, 100, 110, 120, 140, 150, 160, 175, 185, 195, 210, 220, 240, 250, 260]

def barrierSegs : List ℕ := [38, 39, 40, 41, 96, 97, 98, 99, 180, 181, 182, 183]

def buildScenery1 (_rand : ℕ → ℚ) (segs : List Seg1) : List Seg1 :=
  let totalSegs := segs.length
  let s1 := palmPositions.foldl
    (fun acc i =>
      if i < totalSegs then
        modifySeg acc i (fun s =>
          { s with objLeft := some ("palm", -3/2), objRight := some ("palm", 3/2) })
      else acc) segs
  let standSegs : List ℤ :=
    [20, 21, 22, 23, 24, (totalSegs : ℤ) - 8, (totalSegs : ℤ) - 7, (totalSegs : ℤ) - 6]
  let s2 := standSegs.foldl
    (fun acc i =>
      if 0 ≤ i ∧ i < (totalSegs : ℤ) then
        modifySeg acc i.toNat (fun s => { s with objLeft := some ("grandstand", -11/5) })
      else acc) s1
  barrierSegs.foldl
    (fun acc i =>
      if i < totalSegs then
        modifySeg acc i (fun s =>
          { s with objLeft := some ("barrier", -21/20), objRight := some ("barrier", 21/20) })
      else acc) s2

/-! ## Variant 2: computable mirror of the object placements

`buildTrack2At` is stated over `ℝ` curvatures and hence cannot be
evaluated; the object placements, however, depend only on segment indices,
corner membership and the random stream.  `objectsFrom` recomputes exactly
the object lists the population pass stores, and is proved to agree with
`buildTrack2At` below. -/

/-- Per-segment corner ids of the raw first-loop output. -/
def cornerList (zones : List Zone) : List (Option ℕ) :=
  (zones.map (fun z => List.replicate z.len.toNat (zoneCornerIdx z))).flatten

/-- Computable replay of the object-population pass over the corner-id
skeleton of the built segments. -/
def objectsFrom (rand : ℕ → ℚ) (total : ℕ) :
    List (Option ℕ) → ℕ → ℕ → List (List Obj)
  | [], _, _ => []
  | c :: rest, i, rctr =>
      let treeObjs : List Obj :=
        if i % 8 = 0 then
          [⟨"tree", (if rand rctr > 1/2 then 9/5 else -9/5) + rand (rctr + 1) * (1/2)⟩]
        else []
      let rctr2 := if i % 8 = 0 then rctr + 2 else rctr
      let standObjs : List Obj :=
        if (i < 60 ∨ (250 < i ∧ i < 350) ∨ i + 100 > total) ∧ i % 15 = 0 then
          [⟨"grandstand", -5/2⟩]
        else []
      let sponsorObjs : List Obj :=
        if c.isSome ∧ i % 10 = 0 then [⟨"sponsor", 13/10⟩] else []
      (treeObjs ++ standObjs ++ sponsorObjs) :: objectsFrom rand total rest (i + 1) rctr2

/-- The roadside object placement lists (one entry per segment, in track
order) produced by running variant 2's track construction with ambient
random stream `rand`. -/
noncomputable def placements (rand : ℕ → ℚ) : List (List Obj) :=
  (buildTrack2 rand).map (fun s => s.objects)

/-! ## Helper lemmas -/

set_option maxRecDepth 1000000 in
theorem track1_len : track1.length = 474 := rfl

set_option maxRecDepth 100000 in
theorem segAt1_small {p : ℚ} (h0 : 0 ≤ p) (h1 : p < 200) :
    segAt1 p = ⟨0, 0, 0, none, 0, none, none⟩ := by
  have hf : ⌊p / SEGMENT_LENGTH⌋ = 0 := by
    rw [Int.floor_eq_zero_iff]
    refine ⟨div_nonneg h0 (by norm_num [SEGMENT_LENGTH]), ?_⟩
    rw [div_lt_one (by norm_num [SEGMENT_LENGTH])]
    simpa [SEGMENT_LENGTH] using h1
  simp [segAt1, hf]
  rfl

theorem trackLen1_val : trackLen1 = 94800 := by
  norm_num [trackLen1, track1_len, SEGMENT_LENGTH]

theorem speedStep1_bounds (up down : Bool) {sp : ℚ} (h0 : 0 ≤ sp) (h1 : sp ≤ MAX_SPEED) :
    0 ≤ speedStep1 up down sp ∧ speedStep1 up down sp ≤ MAX_SPEED := by
  have hM : MAX_SPEED = 440 := rfl
  cases up <;> cases down <;>
    simp [speedStep1, ACCELERATION, BRAKING, DECEL, hM,
      le_max_iff, max_le_iff, le_min_iff, min_le_iff] <;>
    linarith

theorem tick1_speed_bound {e : Eng1} (h0 : 0 ≤ e.speed) (h1 : e.speed ≤ MAX_SPEED) :
    0 ≤ (tick1 e).speed ∧ (tick1 e).speed ≤ MAX_SPEED := by
  obtain ⟨hs0, hs1⟩ := speedStep1_bounds (effKeys1 e).up (effKeys1 e).down h0 h1
  have hsp : (tick1 e).speed =
      (let sp3 := speedStep1 (effKeys1 e).up (effKeys1 e).down e.speed
       let x3 := steerStep1 (effKeys1 e).left (effKeys1 e).right sp3 e.x
         - (segAt1 e.position).curve * CENTRIFUGAL * (sp3 / MAX_SPEED) * (1/100)
       if |x3| > 1 then sp3 * OFFROAD_DECEL else sp3) := rfl
  simp only [hsp]
  split_ifs
  · constructor
    · exact mul_nonneg hs0 (by norm_num [OFFROAD_DECEL])
    · calc speedStep1 (effKeys1 e).up (effKeys1 e).down e.speed * OFFROAD_DECEL
          ≤ speedStep1 (effKeys1 e).up (effKeys1 e).down e.speed * 1 := by
            apply mul_le_mul_of_nonneg_left _ hs0
            norm_num [OFFROAD_DECEL]
        _ ≤ MAX_SPEED := by rw [mul_one]; exact hs1
  · exact ⟨hs0, hs1⟩

theorem tick1_speed_eq (e : Eng1) :
    (tick1 e).speed =
      (let sp3 := speedStep1 (effKeys1 e).up (effKeys1 e).down e.speed
       let x3 := steerStep1 (effKeys1 e).left (effKeys1 e).right sp3 e.x
         - (segAt1 e.position).curve * CENTRIFUGAL * (sp3 / MAX_SPEED) * (1/100)
       if |x3| > 1 then sp3 * OFFROAD_DECEL else sp3) := rfl

theorem tick1_position_eq (e : Eng1) :
    (tick1 e).position =
      (let p1 := e.position + (tick1 e).speed
       let p2 := if p1 ≥ e.trackLength then p1 - e.trackLength else p1
       if p2 < 0 then 0 else p2) := rfl

theorem tick1_lapCount_eq (e : Eng1) :
    (tick1 e).lapCount =
      e.lapCount + (if e.position + (tick1 e).speed ≥ e.trackLength then 1 else 0) := rfl

theorem tick1_dist_eq (e : Eng1) : (tick1 e).dist = e.dist + (tick1 e).speed := rfl

theorem tick1_trackLength_eq (e : Eng1) : (tick1 e).trackLength = e.trackLength := rfl

theorem inv1_tick {e : Eng1} (h : Inv1 e) : Inv1 (tick1 e) := by
  obtain ⟨h0, h1, hp0, hp1, htl, hacc⟩ := h
  obtain ⟨hs0, hs1⟩ := tick1_speed_bound h0 h1
  have hL : trackLen1 = 94800 := trackLen1_val
  have hM : MAX_SPEED = 440 := rfl
  by_cases hw : e.position + (tick1 e).speed ≥ e.trackLength
  · have hpos : (tick1 e).position = e.position + (tick1 e).speed - e.trackLength := by
      rw [tick1_position_eq]
      simp only [if_pos hw, if_neg (by linarith [hw] : ¬ e.position + (tick1 e).speed - e.trackLength < 0)]
    refine ⟨hs0, hs1, ?_, ?_, tick1_trackLength_eq e ▸ htl, ?_⟩
    · rw [hpos]; linarith
    · rw [hpos, htl]; linarith
    · rw [tick1_lapCount_eq, if_pos hw, tick1_dist_eq, hpos, htl]
      push_cast
      linarith [hacc]
  · have hpos : (tick1 e).position = e.position + (tick1 e).speed := by
      rw [tick1_position_eq]
      simp only [if_neg hw, if_neg (by linarith : ¬ e.position + (tick1 e).speed < 0)]
    refine ⟨hs0, hs1, ?_, ?_, tick1_trackLength_eq e ▸ htl, ?_⟩
    · rw [hpos]; linarith
    · rw [hpos]; rw [htl] at hw; linarith [not_le.mp hw]
    · rw [tick1_lapCount_eq, if_neg hw, tick1_dist_eq, hpos]
      push_cast
      linarith [hacc]

theorem inv1_keyDown (k : Key) {e : Eng1} (h : Inv1 e) : Inv1 (keyDown1 k e) := by
  unfold keyDown1
  split_ifs <;> exact h

theorem inv1_keyUp (k : Key) {e : Eng1} (h : Inv1 e) : Inv1 (keyUp1 k e) := h

theorem inv1_init : Inv1 init1 := by
  refine ⟨le_refl 0, by norm_num [init1, MAX_SPEED], le_refl 0, ?_, rfl, by norm_num [init1]⟩
  rw [trackLen1_val]
  norm_num [init1]

theorem inv1_step (ev : Ev) {e : Eng1} (h : Inv1 e) : Inv1 (stepEv e ev) := by
  cases ev with
  | keyDownEv k => exact inv1_keyDown k h
  | keyUpEv k => exact inv1_keyUp k h
  | tick => exact inv1_tick h

theorem inv1_run (evs : List Ev) : Inv1 (run1 evs) := by
  suffices h : ∀ s, Inv1 s → Inv1 (evs.foldl stepEv s) from h init1 inv1_init
  induction evs with
  | nil => exact fun s hs => hs
  | cons ev rest ih => exact fun s hs => ih _ (inv1_step ev hs)

/-! ## Helper lemmas: variant 2 -/

theorem numSegs2_val : numSegs2 = 805 := rfl

theorem zoneHit_zero : zoneHit TRACK_ZONES 0 = some (⟨.straight, 50, 0, none⟩, 0) := by
  decide

theorem zoneHit_802 : zoneHit TRACK_ZONES 802 = some (⟨.straight, 20, 0, none⟩, 17) := by
  decide

theorem curveAt2_zero : curveAt2 0 = 0 := by
  simp only [curveAt2, zoneHit_zero, zoneCurve]
  norm_num

theorem curveAt2_802 : curveAt2 802 = 0 := by
  simp only [curveAt2, zoneHit_802, zoneCurve]
  norm_num

theorem offroadAdj_bounds {t bound : ℝ} (h0 : 0 ≤ t) (h1 : t ≤ bound) (c : Prop)
    [Decidable c] :
    0 ≤ (if c then t * OFFROAD_DECEL2 else t) ∧
      (if c then t * OFFROAD_DECEL2 else t) ≤ bound := by
  have hd : OFFROAD_DECEL2 = 24/25 := by norm_num [OFFROAD_DECEL2]
  split_ifs <;> constructor <;> first | linarith | nlinarith

/-- Bounds for the human-mode speed branch of variant 2's `update`. -/
theorem humanSpeed2_bounds (up down : Bool) {sp : ℝ} (h0 : 0 ≤ sp)
    (h1 : sp ≤ MAX_SPEED2 + ACCELERATION2) :
    0 ≤ (if up then min (sp + ACCELERATION2) MAX_SPEED2
         else if down then max (sp - BRAKING2) 0 else max (sp - DECEL2) 0) ∧
      (if up then min (sp + ACCELERATION2) MAX_SPEED2
       else if down then max (sp - BRAKING2) 0 else max (sp - DECEL2) 0) ≤
        MAX_SPEED2 + ACCELERATION2 := by
  have hM : MAX_SPEED2 = 450 := by norm_num [MAX_SPEED2]
  have hA : ACCELERATION2 = 16/5 := by norm_num [ACCELERATION2]
  have hB : BRAKING2 = 12 := by norm_num [BRAKING2]
  have hD : DECEL2 = 5/2 := by norm_num [DECEL2]
  rw [hM, hA] at h1
  cases up <;> cases down <;>
    simp only [Bool.false_eq_true, Bool.true_eq_false, if_true, if_false, ite_true,
      ite_false, hM, hA, hB, hD] <;>
    (constructor <;>
      simp only [le_max_iff, max_le_iff, le_min_iff, min_le_iff] <;>
      first
        | linarith
        | (left; linarith)
        | (right; linarith)
        | (constructor <;> first | linarith | (left; linarith) | (right; linarith)))

/-- Bounds for the demo-mode speed branch of variant 2's `update`: the
accelerate arm is not clamped, so the speed can exceed `MAX_SPEED` by up to
one `ACCELERATION` increment, but no more, and can never become negative
(braking only fires at or above the 120-unit target). -/
theorem demoSpeed2_bounds {sp curve : ℝ} (h0 : 0 ≤ sp)
    (h1 : sp ≤ MAX_SPEED2 + ACCELERATION2) :
    0 ≤ (if sp < (if |curve| > 1 then (120:ℝ) else MAX_SPEED2) then sp + ACCELERATION2
         else sp - BRAKING2) ∧
      (if sp < (if |curve| > 1 then (120:ℝ) else MAX_SPEED2) then sp + ACCELERATION2
       else sp - BRAKING2) ≤ MAX_SPEED2 + ACCELERATION2 := by
  have hM : MAX_SPEED2 = 450 := by norm_num [MAX_SPEED2]
  have hA : ACCELERATION2 = 16/5 := by norm_num [ACCELERATION2]
  have hB : BRAKING2 = 12 := by norm_num [BRAKING2]
  rw [hM, hA] at h1
  rw [hM, hA, hB]
  split_ifs <;> constructor <;> linarith

/-- The speed stored by one variant-2 `update`, any mode: bounded by
`MAX_SPEED + ACCELERATION` (and nonnegative). -/
theorem tick2_speed_general {e : Eng2} (h0 : 0 ≤ e.speed)
    (h1 : e.speed ≤ MAX_SPEED2 + ACCELERATION2) :
    0 ≤ (tick2 e).speed ∧ (tick2 e).speed ≤ MAX_SPEED2 + ACCELERATION2 := by
  cases hde : e.demo <;>
    simp only [tick2, hde, Bool.false_eq_true, Bool.true_eq_false, if_true, if_false,
      ite_true, ite_false]
  · exact offroadAdj_bounds (humanSpeed2_bounds e.keys.up e.keys.down h0 h1).1
      (humanSpeed2_bounds e.keys.up e.keys.down h0 h1).2 _
  · exact offroadAdj_bounds (demoSpeed2_bounds h0 h1).1 (demoSpeed2_bounds h0 h1).2 _

/-- In human mode the variant-2 speed respects the strict `MAX_SPEED`
bound, as both clamps are present. -/
theorem tick2_speed_human {e : Eng2} (hd : e.demo = false) (h0 : 0 ≤ e.speed)
    (h1 : e.speed ≤ MAX_SPEED2) :
    0 ≤ (tick2 e).speed ∧ (tick2 e).speed ≤ MAX_SPEED2 := by
  have hM : MAX_SPEED2 = 450 := by norm_num [MAX_SPEED2]
  have hA : ACCELERATION2 = 16/5 := by norm_num [ACCELERATION2]
  have hB : BRAKING2 = 12 := by norm_num [BRAKING2]
  have hD : DECEL2 = 5/2 := by norm_num [DECEL2]
  have hbranch : 0 ≤ (if e.keys.up then min (e.speed + ACCELERATION2) MAX_SPEED2
        else if e.keys.down then max (e.speed - BRAKING2) 0 else max (e.speed - DECEL2) 0) ∧
      (if e.keys.up then min (e.speed + ACCELERATION2) MAX_SPEED2
       else if e.keys.down then max (e.speed - BRAKING2) 0 else max (e.speed - DECEL2) 0) ≤
        MAX_SPEED2 := by
    rw [hM] at h1
    cases hu : e.keys.up <;> cases hdn : e.keys.down <;>
      simp only [Bool.false_eq_true, Bool.true_eq_false, if_true, if_false, ite_true,
        ite_false, hM, hA, hB, hD] <;>
      (constructor <;>
        simp only [le_max_iff, max_le_iff, le_min_iff, min_le_iff] <;>
        first
          | linarith
          | (left; linarith)
          | (right; linarith)
          | (constructor <;> first | linarith | (left; linarith) | (right; linarith)))
  simp only [tick2, hd, Bool.false_eq_true, if_false, ite_false]
  exact offroadAdj_bounds hbranch.1 hbranch.2 _

theorem tick2_position_eq (e : Eng2) :
    (tick2 e).position =
      (if e.position + (tick2 e).speed > e.trackLength
       then e.position + (tick2 e).speed - e.trackLength
       else e.position + (tick2 e).speed) := rfl

theorem tick2_lapCount_eq (e : Eng2) :
    (tick2 e).lapCount =
      e.lapCount + (if e.position + (tick2 e).speed > e.trackLength then 1 else 0) := rfl

theorem tick2_trackLength_eq (e : Eng2) : (tick2 e).trackLength = e.trackLength := rfl

/-- Landing exactly on `trackLength` in variant 2 (strict `>` wrap test):
no lap event, and the position is left sitting at `trackLength`. -/
theorem tick2_exact_landing {e : Eng2}
    (h : e.position + (tick2 e).speed = e.trackLength) :
    (tick2 e).lapCount = e.lapCount ∧ (tick2 e).position = e.trackLength := by
  rw [tick2_lapCount_eq, tick2_position_eq, h]
  simp

theorem tick2_position_bounds {e : Eng2} (h0 : 0 ≤ e.speed)
    (h1 : e.speed ≤ MAX_SPEED2 + ACCELERATION2) (hp0 : 0 ≤ e.position)
    (hp1 : e.position ≤ e.trackLength)
    (hL : MAX_SPEED2 + ACCELERATION2 ≤ e.trackLength) :
    0 ≤ (tick2 e).position ∧ (tick2 e).position ≤ e.trackLength := by
  obtain ⟨hs0, hs1⟩ := tick2_speed_general h0 h1
  rw [tick2_position_eq]
  split_ifs with hw <;> constructor <;> linarith

set_option maxRecDepth 1000000 in
theorem segAt1_94797 : segAt1 94797 = ⟨473, 0, 0, none, 0, none, none⟩ := by
  have hf : ⌊(94797 : ℚ) / SEGMENT_LENGTH⌋ = 473 := by
    rw [SEGMENT_LENGTH, Int.floor_eq_iff]
    norm_num
  simp [segAt1, hf, track1_len]
  rfl

/-! ## Helper lemmas: fixed-speed corner scan (C2) -/

set_option maxRecDepth 1000000 in
theorem track1_corner_pattern :
    track1.map (fun s => s.cornerIndex) = (List.range 474).map (zFindSeg zones1seg) := by
  decide

theorem track1_corner_getD {n : ℕ} (h : n < 474) :
    (track1.getD n ⟨0, 0, 0, none, 0, none, none⟩).cornerIndex = zFindSeg zones1seg n := by
  have h474 : n < track1.length := by rw [track1_len]; exact h
  have hmap := congrArg (fun l => l[n]?) track1_corner_pattern
  simp only [List.getElem?_map] at hmap
  rw [List.getElem?_range h] at hmap
  obtain ⟨s, hs⟩ : ∃ s, track1[n]? = some s :=
    ⟨track1[n], List.getElem?_eq_getElem h474⟩
  rw [hs] at hmap
  simp only [Option.map_some'] at hmap
  have hgd : track1.getD n ⟨0, 0, 0, none, 0, none, none⟩ = s := by
    rw [List.getD_eq_getElem?_getD, hs]
    rfl
  rw [hgd]
  exact Option.some.inj hmap

theorem zFind_scale (l : List (ℕ × ℕ × ℕ)) :
    ∀ q : ℚ, 0 ≤ q →
      zFind (l.map (fun z => (z.1, SEGMENT_LENGTH * (z.2.1 : ℚ),
          SEGMENT_LENGTH * (z.2.2 : ℚ)))) q =
        zFindSeg l (Int.toNat ⌊q / SEGMENT_LENGTH⌋) := by
  induction l with
  | nil => intro q hq; simp [zFind, zFindSeg]
  | cons z rest ih =>
      intro q hq
      obtain ⟨i, a, b⟩ := z
      have hS : (0:ℚ) < SEGMENT_LENGTH := by norm_num [SEGMENT_LENGTH]
      have hfl : (0:ℤ) ≤ ⌊q / SEGMENT_LENGTH⌋ :=
        Int.floor_nonneg.mpr (div_nonneg hq hS.le)
      have h1 : SEGMENT_LENGTH * (a:ℚ) ≤ q ↔ a ≤ Int.toNat ⌊q / SEGMENT_LENGTH⌋ := by
        rw [Int.le_toNat hfl, Int.le_floor]
        push_cast
        rw [le_div_iff hS]
        constructor <;> intro h <;> linarith
      have h2 : q < SEGMENT_LENGTH * (b:ℚ) ↔ Int.toNat ⌊q / SEGMENT_LENGTH⌋ < b := by
        rw [Int.toNat_lt hfl, Int.floor_lt]
        push_cast
        rw [div_lt_iff hS]
        constructor <;> intro h <;> linarith
      simp only [List.map_cons, zFind, zFindSeg, h1, h2, ih q hq]

theorem segAt1_corner {q : ℚ} (h0 : 0 ≤ q) (h1 : q < trackLen1) :
    (segAt1 q).cornerIndex = zFind zones1 q := by
  have hS : (0:ℚ) < SEGMENT_LENGTH := by norm_num [SEGMENT_LENGTH]
  have hfl : (0:ℤ) ≤ ⌊q / SEGMENT_LENGTH⌋ :=
    Int.floor_nonneg.mpr (div_nonneg h0 hS.le)
  have hn : Int.toNat ⌊q / SEGMENT_LENGTH⌋ < 474 := by
    rw [Int.toNat_lt hfl, Int.floor_lt]
    rw [trackLen1_val] at h1
    push_cast
    rw [div_lt_iff hS]
    norm_num [SEGMENT_LENGTH]
    linarith
  rw [segAt1, track1_len, Nat.mod_eq_of_lt hn, zones1, zFind_scale _ q h0]
  exact track1_corner_getD hn

theorem emit_none (prev : Option ℕ) : emit prev none = [] := by
  simp [emit]

theorem emit_some (prev : Option ℕ) (k : ℕ) :
    emit prev (some k) = if prev = some k then [] else [k] := by
  by_cases h : prev = some k
  · simp [emit, h]
  · simp [emit, h, Ne.symm h]

theorem events_of_none : ∀ (l : List (Option ℕ)) (prev : Option ℕ),
    (∀ x ∈ l, x = none) → events prev l = []
  | [], _, _ => rfl
  | b :: t, prev, h => by
      have hb : b = none := h b (List.mem_cons_self b t)
      rw [events, hb, emit_none, List.nil_append]
      exact events_of_none t none (fun x hx => h x (List.mem_cons_of_mem b hx))

theorem events_replicate_none (n : ℕ) (xs : List (Option ℕ)) : ∀ (prev : Option ℕ),
    events prev (List.replicate n none ++ xs) =
      events (if n = 0 then prev else none) xs := by
  induction n with
  | zero => intro prev; simp
  | succ m ih =>
      intro prev
      rw [List.replicate_succ, List.cons_append, events, emit_none, List.nil_append, ih none]
      cases m <;> simp

theorem events_replicate_some (k : ℕ) (xs : List (Option ℕ)) :
    ∀ (m : ℕ) (prev : Option ℕ),
      events prev (List.replicate (m + 1) (some k) ++ xs) =
        (if prev = some k then [] else [k]) ++ events (some k) xs := by
  intro m
  induction m with
  | zero =>
      intro prev
      rw [List.replicate_succ, List.replicate_zero, List.cons_append, List.nil_append,
        events, emit_some]
  | succ m ih =>
      intro prev
      rw [List.replicate_succ, List.cons_append, events, emit_some, ih (some k)]
      simp

theorem map_range1_const {α : Type} (c : ℕ → α) (a : α) :
    ∀ (n s : ℕ), (∀ j, s ≤ j → j < s + n → c j = a) →
      (List.range' s n).map c = List.replicate n a := by
  intro n
  induction n with
  | zero => intro s _; simp
  | succ m ih =>
      intro s h
      rw [List.range'_succ, List.map_cons, h s le_rfl (by omega), List.replicate_succ]
      rw [ih (s + 1) (fun j hj1 hj2 => h j (by omega) (by omega))]

theorem range1_split {s m n : ℕ} (h1 : s ≤ m) (h2 : m ≤ n) :
    List.range' s (n - s) = List.range' s (m - s) ++ List.range' m (n - m) := by
  have hr := List.range'_append s (m - s) (n - m) 1
  rw [one_mul, show s + (m - s) = m by omega] at hr
  rw [show n - s = (n - m) + (m - s) by omega]
  exact hr.symm

theorem events_concat (l : List (Option ℕ)) (a : Option ℕ) : ∀ (p : Option ℕ),
    events p (l ++ [a]) = events p l ++ emit (l.getLast?.getD p) a := by
  induction l with
  | nil => intro p; simp [events]
  | cons b t ih =>
      intro p
      rw [List.cons_append, events, events, ih b, List.append_assoc]
      congr 2
      cases t with
      | nil => simp
      | cons c u =>
          rw [List.getLast?_cons_cons]
          cases hcu : (c :: u).getLast? with
          | none => exact absurd (List.getLast?_eq_none_iff.mp hcu) (by simp)
          | some y => simp

theorem lapTicks_le_iff {v : ℚ} (hv : 0 < v) (k : ℕ) :
    lapTicks v ≤ k ↔ trackLen1 ≤ (k : ℚ) * v := by
  rw [lapTicks, Int.toNat_le, Int.ceil_le, div_le_iff hv]
  push_cast
  exact Iff.rfl

theorem lapTicks_pos {v : ℚ} (hv : 0 < v) : 0 < lapTicks v := by
  by_contra h
  push_neg at h
  have := (lapTicks_le_iff hv 0).mp (by omega)
  rw [trackLen1_val] at this
  push_cast at this
  linarith

theorem tickFixed_fst (v : ℚ) (st : ℚ × Option ℕ × List ℕ) :
    (tickFixed v st).1 =
      (if st.1 + v ≥ trackLen1 then st.1 + v - trackLen1 else st.1 + v) := rfl

theorem tickFixed_prev (v : ℚ) (st : ℚ × Option ℕ × List ℕ) :
    (tickFixed v st).2.1 = (segAt1 st.1).cornerIndex := rfl

theorem tickFixed_log (v : ℚ) (st : ℚ × Option ℕ × List ℕ) :
    (tickFixed v st).2.2 = st.2.2 ++ emit st.2.1 (segAt1 st.1).cornerIndex := rfl

theorem scanFixed_spec {v : ℚ} (hv : 0 < v) :
    ∀ n, n ≤ lapTicks v →
      ((n < lapTicks v → (scanFixed v n).1 = (n : ℚ) * v) ∧
       (scanFixed v n).2.1 = (if n = 0 then none else cAt v (n - 1)) ∧
       (scanFixed v n).2.2 = events none ((List.range' 0 n).map (cAt v))) := by
  intro n
  induction n with
  | zero =>
      intro _
      refine ⟨fun _ => by simp [scanFixed], by simp [scanFixed], by simp [scanFixed, events]⟩
  | succ m ih =>
      intro hle
      have hmlt : m < lapTicks v := by omega
      obtain ⟨hpos, hprev, hlog⟩ := ih (by omega)
      have hposm := hpos hmlt
      have hstep : scanFixed v (m + 1) = tickFixed v (scanFixed v m) := rfl
      have hwrapiff : (scanFixed v m).1 + v ≥ trackLen1 ↔ lapTicks v ≤ m + 1 := by
        rw [hposm, lapTicks_le_iff hv]
        push_cast
        constructor <;> intro h <;> linarith
      refine ⟨?_, ?_, ?_⟩
      · intro hlt
        rw [hstep, tickFixed_fst, if_neg, hposm]
        · push_cast; ring
        · rw [hwrapiff]
          omega
      · rw [hstep, tickFixed_prev, hposm]
        simp [cAt]
      · rw [hstep, tickFixed_log, hprev, hlog, hposm]
        have hcm : (segAt1 ((m : ℚ) * v)).cornerIndex = cAt v m := rfl
        rw [hcm]
        have hrange : List.range' 0 (m + 1) = List.range' 0 m ++ [m] := by
          have := @List.range'_concat 1 0 m
          simpa using this
        rw [hrange, List.map_append, List.map_singleton, events_concat]
        congr 2
        cases m with
        | zero => simp
        | succ k =>
            have hr2 : List.range' 0 (k + 1) = List.range' 0 k ++ [k] := by
              have := @List.range'_concat 1 0 k
              simpa using this
            rw [hr2, List.map_append, List.map_singleton, List.getLast?_concat]
            simp

theorem zFind_eq_none (q : ℚ) : ∀ (l : List (ℕ × ℚ × ℚ)), (∀ z ∈ l, q < z.2.1) →
    zFind l q = none
  | [], _ => rfl
  | (i, a, b) :: rest, h => by
      have ha : q < a := h (i, a, b) (List.mem_cons_self _ _)
      rw [zFind, if_neg (by rintro ⟨h1, h2⟩; linarith)]
      exact zFind_eq_none q rest (fun z hz => h z (List.mem_cons_of_mem _ hz))

theorem zonesOK_lower {v NQ : ℚ} (hv : 0 < v) :
    ∀ (i : ℕ) (a b : ℚ) (rest : List (ℕ × ℚ × ℚ)),
      ZonesOK v NQ ((i, a, b) :: rest) → ∀ z ∈ rest, b ≤ z.2.1
  | _, _, _, [], _, z, hz => absurd hz (List.not_mem_nil z)
  | i, a, b, (i2, a2, b2) :: rest2, h, z, hz => by
      simp only [ZonesOK] at h
      obtain ⟨h0, h1, h2, ⟨hba, hne⟩, hrest⟩ := h
      rcases List.mem_cons.mp hz with rfl | hz2
      · exact hba
      · have hlow := zonesOK_lower hv i2 a2 b2 rest2 hrest z hz2
        have hrest2 := hrest
        simp only [ZonesOK] at hrest2
        obtain ⟨_, h1', _, _, _⟩ := hrest2
        linarith

theorem events_chain {v : ℚ} (hv : 0 < v) (N : ℕ) (c : ℕ → Option ℕ) :
    ∀ (Z : List (ℕ × ℚ × ℚ)) (j0 : ℕ) (prev : Option ℕ),
      j0 ≤ N →
      (∀ j, j0 ≤ j → j < N → c j = zFind Z ((j : ℚ) * v)) →
      ZonesOK v ((N : ℚ) * v) Z →
      (match Z with
       | [] => True
       | (i, a, _) :: _ => ((j0 : ℚ) - 1) * v < a ∧ prev ≠ some i) →
      events prev ((List.range' j0 (N - j0)).map c) = Z.map (fun z => z.1) := by
  intro Z
  induction Z with
  | nil =>
      intro j0 prev hj0 hc _ _
      rw [events_of_none, List.map_nil]
      intro y hy
      obtain ⟨j, hj, rfl⟩ := List.mem_map.mp hy
      obtain ⟨hj1, hj2⟩ := List.mem_range'_1.mp hj
      rw [hc j hj1 (by omega)]
      rfl
  | cons z rest ih =>
      obtain ⟨i, a, b⟩ := z
      intro j0 prev hj0N hc hzo hstart
      obtain ⟨hstart1, hprev⟩ := hstart
      have hzo2 := hzo
      simp only [ZonesOK] at hzo2
      obtain ⟨ha0, hab, hbN, hnext, hrest⟩ := hzo2
      have hb0 : (0:ℚ) ≤ b := by linarith
      have hza0 : (0:ℤ) ≤ ⌈a / v⌉ := Int.ceil_nonneg (div_nonneg ha0 hv.le)
      have hzb0 : (0:ℤ) ≤ ⌈b / v⌉ := Int.ceil_nonneg (div_nonneg hb0 hv.le)
      have heZ : ((⌈a / v⌉.toNat : ℤ)) = ⌈a / v⌉ := Int.toNat_of_nonneg hza0
      have hxZ : ((⌈b / v⌉.toNat : ℤ)) = ⌈b / v⌉ := Int.toNat_of_nonneg hzb0
      set e := ⌈a / v⌉.toNat with he
      set x := ⌈b / v⌉.toNat with hx
      have heQ : ((e : ℕ) : ℚ) = ((⌈a / v⌉ : ℤ) : ℚ) := by rw [← heZ]; push_cast; ring
      have hxQ : ((x : ℕ) : ℚ) = ((⌈b / v⌉ : ℤ) : ℚ) := by rw [← hxZ]; push_cast; ring
      have hceil_a_lo : a ≤ (e : ℚ) * v := by
        rw [heQ]
        have h3 := Int.le_ceil (a / v)
        rw [div_le_iff hv] at h3
        linarith
      have hceil_a_hi : ((e : ℚ) - 1) * v < a := by
        rw [heQ]
        have h3 := Int.ceil_lt_add_one (a / v)
        have h4 : ((⌈a / v⌉ : ℤ) : ℚ) - 1 < a / v := by linarith
        rw [lt_div_iff hv] at h4
        linarith
      have hceil_b_lo : b ≤ (x : ℚ) * v := by
        rw [hxQ]
        have h3 := Int.le_ceil (b / v)
        rw [div_le_iff hv] at h3
        linarith
      have hceil_b_hi : ((x : ℚ) - 1) * v < b := by
        rw [hxQ]
        have h3 := Int.ceil_lt_add_one (b / v)
        have h4 : ((⌈b / v⌉ : ℤ) : ℚ) - 1 < b / v := by linarith
        rw [lt_div_iff hv] at h4
        linarith
      have hj0e : j0 ≤ e := by
        by_contra hcon
        push_neg at hcon
        have h5 : (e : ℚ) ≤ (j0 : ℚ) - 1 := by
          have : (e : ℕ) + 1 ≤ j0 := hcon
          have h6 : ((e : ℕ) : ℚ) + 1 ≤ (j0 : ℚ) := by exact_mod_cast this
          linarith
        have h7 : (e : ℚ) * v ≤ ((j0 : ℚ) - 1) * v := by
          apply mul_le_mul_of_nonneg_right h5 hv.le
        linarith
      have hex : e < x := by
        have h5 : (e : ℚ) * v < a + v := by
          have := hceil_a_hi
          linarith [hceil_a_hi]
        have h6 : (e : ℚ) * v < (x : ℚ) * v := by linarith
        have h7 : (e : ℚ) < (x : ℚ) := lt_of_mul_lt_mul_right h6 hv.le
        exact_mod_cast h7
      have hxN : x ≤ N := by
        have h5 : (x : ℚ) - 1 < (N : ℚ) := by
          have h6 : ((x : ℚ) - 1) * v < (N : ℚ) * v := by linarith
          have := lt_of_mul_lt_mul_right h6 hv.le
          linarith
        have h6 : (x : ℚ) < (N : ℚ) + 1 := by linarith
        have h7 : x < N + 1 := by exact_mod_cast h6
        omega
      have g1 : ∀ j, j0 ≤ j → j < e → c j = none := by
        intro j hja hjb
        have hjq : (j : ℚ) ≤ (e : ℚ) - 1 := by
          have : j + 1 ≤ e := hjb
          have h6 : ((j : ℕ) : ℚ) + 1 ≤ (e : ℚ) := by exact_mod_cast this
          linarith
        have hjv : (j : ℚ) * v < a := by
          have h7 : (j : ℚ) * v ≤ ((e : ℚ) - 1) * v :=
            mul_le_mul_of_nonneg_right hjq hv.le
          linarith
        rw [hc j hja (by omega), zFind, if_neg (by rintro ⟨h8, _⟩; linarith)]
        apply zFind_eq_none
        intro z hz
        have := zonesOK_lower hv i a b rest hzo z hz
        linarith
      have g2 : ∀ j, e ≤ j → j < x → c j = some i := by
        intro j hja hjb
        have hjlo : a ≤ (j : ℚ) * v := by
          have h6 : (e : ℚ) ≤ (j : ℚ) := by exact_mod_cast hja
          have h7 : (e : ℚ) * v ≤ (j : ℚ) * v := mul_le_mul_of_nonneg_right h6 hv.le
          linarith
        have hjhi : (j : ℚ) * v < b := by
          have : j + 1 ≤ x := hjb
          have h6 : ((j : ℕ) : ℚ) + 1 ≤ (x : ℚ) := by exact_mod_cast this
          have h7 : (j : ℚ) * v ≤ ((x : ℚ) - 1) * v :=
            mul_le_mul_of_nonneg_right (by linarith) hv.le
          linarith
        rw [hc j (by omega) (by omega), zFind, if_pos ⟨hjlo, hjhi⟩]
      have g3 : ∀ j, x ≤ j → j < N → c j = zFind rest ((j : ℚ) * v) := by
        intro j hja hjb
        have hjlo : b ≤ (j : ℚ) * v := by
          have h6 : (x : ℚ) ≤ (j : ℚ) := by exact_mod_cast hja
          have h7 : (x : ℚ) * v ≤ (j : ℚ) * v := mul_le_mul_of_nonneg_right h6 hv.le
          linarith
        rw [hc j (by omega) hjb, zFind, if_neg (by rintro ⟨_, h8⟩; linarith)]
      have hsplit1 : List.range' j0 (N - j0) =
          List.range' j0 (e - j0) ++ List.range' e (N - e) :=
        range1_split hj0e (by omega)
      have hsplit2 : List.range' e (N - e) =
          List.range' e (x - e) ++ List.range' x (N - x) :=
        range1_split (by omega) hxN
      have hblk1 : (List.range' j0 (e - j0)).map c = List.replicate (e - j0) none :=
        map_range1_const c none (e - j0) j0 (fun j hj1 hj2 => g1 j hj1 (by omega))
      have hblk2 : (List.range' e (x - e)).map c = List.replicate (x - e) (some i) :=
        map_range1_const c (some i) (x - e) e (fun j hj1 hj2 => g2 j hj1 (by omega))
      obtain ⟨m, hm⟩ : ∃ m, x - e = m + 1 := ⟨x - e - 1, by omega⟩
      rw [hsplit1, hsplit2, List.map_append, List.map_append, hblk1, hblk2,
        events_replicate_none, hm, events_replicate_some]
      have hprev2 : (if e - j0 = 0 then prev else none) ≠ some i := by
        split_ifs
        · exact hprev
        · simp
      rw [if_neg hprev2]
      have hihres := ih x (some i) hxN g3 hrest ?_
      · rw [hihres, List.map_cons]
        rfl
      · cases rest with
        | nil => trivial
        | cons z2 rest2 =>
            obtain ⟨i2, a2, b2⟩ := z2
            simp only [ZonesOK] at hnext
            obtain ⟨hba2, hne2⟩ := hnext
            refine ⟨by linarith, by simp [hne2]⟩

theorem zones1_explicit : zones1 =
    [(1, 4000, 9600), (2, 12600, 16200), (3, 27200, 32800), (4, 32800, 36000),
     (5, 39600, 43800), (6, 45800, 51200), (7, 53600, 57600), (8, 59200, 64800),
     (9, 66800, 71200), (10, 72400, 76000), (11, 79600, 84000), (12, 88000, 92400)] := by
  norm_num [zones1, zones1seg, SEGMENT_LENGTH]

theorem target1_abs (c : ℚ) : target1 c = target1 |c| := by
  by_cases h : c = 0
  · subst h; simp
  · have h2 : |c| ≠ 0 := abs_ne_zero.mpr h
    simp only [target1, if_neg h, if_neg h2, abs_abs]

theorem target1_mono {c d : ℚ} (h : |c| ≤ |d|) : target1 d ≤ target1 c := by
  have hm : (0:ℚ) ≤ |c| := abs_nonneg c
  rw [target1_abs c, target1_abs d]
  unfold target1
  simp only [abs_abs]
  split_ifs <;>
    first
      | (norm_num [MAX_SPEED]; done)
      | linarith
      | exact absurd (le_antisymm (by linarith) hm) (by assumption)

theorem demoAI1_keys_independent (sp x p : ℚ) (k k' : Keys) :
    (demoAI1 sp x p k).up = (demoAI1 sp x p k').up ∧
    (demoAI1 sp x p k).down = (demoAI1 sp x p k').down ∧
    (demoAI1 sp x p k).left = (demoAI1 sp x p k').left ∧
    (demoAI1 sp x p k).right = (demoAI1 sp x p k').right := by
  simp only [demoAI1]
  split_ifs <;> simp

/-! ## Helper lemmas: variant-2 construction and scenery -/

theorem buildZone_length (z : Zone) (s r : ℕ) (rand : ℕ → ℚ) :
    (buildZone z s r rand).length = z.len.toNat := by
  simp [buildZone]

theorem numSegs_cons (z : Zone) (rest : List Zone) :
    numSegs (z :: rest) = z.len.toNat + numSegs rest := by
  simp [numSegs]

theorem buildZones_length (zones : List Zone) : ∀ (s r : ℕ) (rand : ℕ → ℚ),
    (buildZones zones s r rand).length = numSegs zones := by
  induction zones with
  | nil => intro s r rand; simp [buildZones, numSegs]
  | cons z rest ih =>
      intro s r rand
      simp [buildZones, numSegs_cons, buildZone_length, ih]

theorem populateSegs_length (rand : ℕ → ℚ) (total : ℕ) :
    ∀ (segs : List Seg2) (i rctr : ℕ),
      (populateSegs rand total segs i rctr).length = segs.length := by
  intro segs
  induction segs with
  | nil => intro i rctr; simp [populateSegs]
  | cons s rest ih => intro i rctr; simp [populateSegs, ih]

theorem buildTrack2At_length (zones : List Zone) (rand : ℕ → ℚ) :
    (buildTrack2At zones rand).length = numSegs zones := by
  rw [buildTrack2At]
  simp only [populateSegs_length, buildZones_length]

theorem map_const_range {α : Type} (n : ℕ) (a : α) :
    (List.range n).map (fun _ => a) = List.replicate n a := by
  rw [List.map_const', List.length_range]

theorem cornerList_cons (z : Zone) (rest : List Zone) :
    cornerList (z :: rest) =
      List.replicate z.len.toNat (zoneCornerIdx z) ++ cornerList rest := by
  simp [cornerList]

theorem buildZones_corners (zones : List Zone) : ∀ (s r : ℕ) (rand : ℕ → ℚ),
    (buildZones zones s r rand).map (fun sg => sg.cornerIndex) = cornerList zones := by
  induction zones with
  | nil => intro s r rand; simp [buildZones, cornerList]
  | cons z rest ih =>
      intro s r rand
      rw [buildZones, List.map_append, cornerList_cons, ih]
      congr 1
      rw [buildZone, List.map_map]
      exact map_const_range z.len.toNat (zoneCornerIdx z)

theorem populateSegs_objects (rand : ℕ → ℚ) (total : ℕ) :
    ∀ (segs : List Seg2) (i rctr : ℕ),
      (populateSegs rand total segs i rctr).map (fun s => s.objects) =
        objectsFrom rand total (segs.map (fun s => s.cornerIndex)) i rctr := by
  intro segs
  induction segs with
  | nil => intro i rctr; simp [populateSegs, objectsFrom]
  | cons s rest ih =>
      intro i rctr
      simp only [populateSegs, objectsFrom, List.map_cons, ih]

/-- The placement lists of a variant-2 build are exactly the computable
replay over the corner-id skeleton. -/
theorem placements_eq (rand : ℕ → ℚ) :
    placements rand =
      objectsFrom rand (numSegs TRACK_ZONES) (cornerList TRACK_ZONES) 0
        (totalDraws TRACK_ZONES) := by
  rw [placements, buildTrack2, buildTrack2At]
  simp only [populateSegs_objects, buildZones_corners, buildZones_length]

set_option maxRecDepth 1000000 in
theorem cornerList_head :
    cornerList TRACK_ZONES = none :: (cornerList TRACK_ZONES).tail := by
  rfl

theorem objectsFrom_cons (rand : ℕ → ℚ) (total : ℕ) (c : Option ℕ)
    (rest : List (Option ℕ)) (i rctr : ℕ) :
    objectsFrom rand total (c :: rest) i rctr =
      ((if i % 8 = 0 then
          [⟨"tree", (if rand rctr > 1/2 then 9/5 else -9/5) + rand (rctr + 1) * (1/2)⟩]
        else []) ++
       (if (i < 60 ∨ (250 < i ∧ i < 350) ∨ i + 100 > total) ∧ i % 15 = 0 then
          [⟨"grandstand", -5/2⟩]
        else []) ++
       (if c.isSome ∧ i % 10 = 0 then [⟨"sponsor", 13/10⟩] else [])) ::
      objectsFrom rand total rest (i + 1) (if i % 8 = 0 then rctr + 2 else rctr) := rfl

/-- Two ambient random streams on which variant 2's populated placements
differ (already at the start-line segment's tree). -/
theorem placements_ne : placements (fun _ => 0) ≠ placements (fun _ => (3/5 : ℚ)) := by
  rw [placements_eq, placements_eq, cornerList_head, objectsFrom_cons, objectsFrom_cons]
  intro h
  injection h with h1 h2
  norm_num at h1

theorem target2_two_values (c : ℝ) : target2 c = 120 ∨ target2 c = MAX_SPEED2 := by
  unfold target2
  split_ifs <;> simp

theorem target2_mono {c d : ℝ} (h : |c| ≤ |d|) : target2 d ≤ target2 c := by
  unfold target2
  split_ifs <;> first | (norm_num [MAX_SPEED2]; done) | linarith

/-! ## Claim theorems -/

/-- C9, counterexample: against "stop() unconditionally releases the
frame-loop handle and deregisters both bound input listeners" — in the
second engine variant, after `init` and `start`, a `stop()` call leaves
both key listeners registered and the pending frame callback uncancelled. -/
theorem C9_stop2_counterexample :
    (stop2Res (start2Res init2Res)).keydownListener = true ∧
    (stop2Res (start2Res init2Res)).keyupListener = true ∧
    (stop2Res (start2Res init2Res)).rafPending = true := by
  decide

/-- C9 (amended): in the first engine variant, `stop()` unconditionally
clears the running flag, cancels the pending frame callback and removes
both key listeners, and is idempotent.  In the second variant, `stop()`
only clears the running flag — it is idempotent but leaves both listeners
registered and the pending frame callback to expire on its own. -/
theorem C9_stop_release_amended :
    (∀ r : Res, (stop1Res r).running = false ∧ (stop1Res r).rafPending = false ∧
      (stop1Res r).keydownListener = false ∧ (stop1Res r).keyupListener = false) ∧
    (∀ r : Res, stop1Res (stop1Res r) = stop1Res r) ∧
    (∀ r : Res, (stop2Res r).running = false ∧
      (stop2Res r).keydownListener = r.keydownListener ∧
      (stop2Res r).keyupListener = r.keyupListener ∧
      (stop2Res r).rafPending = r.rafPending) ∧
    (∀ r : Res, stop2Res (stop2Res r) = stop2Res r) :=
  ⟨fun _ => ⟨rfl, rfl, rfl, rfl⟩, fun _ => rfl,
   fun _ => ⟨rfl, rfl, rfl, rfl⟩, fun _ => rfl⟩

/-- C8, counterexample: against "at least 4 severity bands" — the second
engine variant's autopilot target speed takes at most two distinct values
(`120` and `MAX_SPEED`), so no four curvatures produce pairwise distinct
target speeds. -/
theorem C8_bands_counterexample :
    ¬ ∃ c1 c2 c3 c4 : ℝ,
      target2 c1 ≠ target2 c2 ∧ target2 c1 ≠ target2 c3 ∧ target2 c1 ≠ target2 c4 ∧
      target2 c2 ≠ target2 c3 ∧ target2 c2 ≠ target2 c4 ∧ target2 c3 ≠ target2 c4 := by
  rintro ⟨c1, c2, c3, c4, h12, h13, h14, h23, h24, h34⟩
  rcases target2_two_values c1 with h1 | h1 <;>
    rcases target2_two_values c2 with h2 | h2 <;>
      rcases target2_two_values c3 with h3 | h3 <;>
        rcases target2_two_values c4 with h4 | h4 <;>
          simp_all

/-- C8 (amended): in both variants the autopilot's target speed is a
function only of the current segment's curvature magnitude, monotonically
non-increasing in it, with near-max speed on straights; the synthesized
arrow-key intents of variant 1's `demoAI` are a pure function of the
vehicle state and current segment (independent of the incoming key map).
Variant 1 uses five severity bands, but variant 2 uses only two
(`120` below/at curvature magnitude 1, `MAX_SPEED` above). -/
theorem C8_autopilot_amended :
    (∀ c d : ℚ, |c| ≤ |d| → target1 d ≤ target1 c) ∧
    (∀ c : ℚ, target1 c = target1 |c|) ∧
    target1 0 = MAX_SPEED * (9/10) ∧
    (target1 3 < target1 2 ∧ target1 2 < target1 1 ∧ target1 1 < target1 (2/5) ∧
      target1 (2/5) < target1 0) ∧
    (∀ sp x p k k',
      (demoAI1 sp x p k).up = (demoAI1 sp x p k').up ∧
      (demoAI1 sp x p k).down = (demoAI1 sp x p k').down ∧
      (demoAI1 sp x p k).left = (demoAI1 sp x p k').left ∧
      (demoAI1 sp x p k).right = (demoAI1 sp x p k').right) ∧
    (∀ c d : ℝ, |c| ≤ |d| → target2 d ≤ target2 c) ∧
    target2 0 = MAX_SPEED2 ∧
    (∀ c : ℝ, target2 c = 120 ∨ target2 c = MAX_SPEED2) := by
  refine ⟨fun c d h => target1_mono h, target1_abs, by norm_num [target1, MAX_SPEED],
    by norm_num [target1, MAX_SPEED, abs_of_nonneg], demoAI1_keys_independent, fun c d h => target2_mono h, ?_, target2_two_values⟩
  norm_num [target2]

/-- C8, witness: the monotone band structure applied at concrete
curvatures. -/
theorem C8_autopilot_witness :
    target1 1 ≤ target1 0 ∧ target2 2 ≤ target2 0 :=
  ⟨C8_autopilot_amended.1 0 1 (by norm_num),
   C8_autopilot_amended.2.2.2.2.2.1 0 2 (by norm_num)⟩

/-- C10: in the first engine variant, `demoAI` writes its synthesized
intents into the same key map that records physical key presses.  Concrete
trace: toggle demo on (`d`), run one frame (demoAI sets ArrowUp and the
vehicle accelerates to 3.5), toggle demo off — with no physical arrow key
ever pressed, ArrowUp is still reported held, so two further frames keep
accelerating (speed 7, then 10.5); only a physical ArrowUp keyup clears it,
after which the next frame passively decelerates (3.5 - 2 = 1.5). -/
theorem C10_demo_keymap_leak :
    (run1 [.keyDownEv .keyD, .tick, .keyDownEv .keyD]).demo = false ∧
    (run1 [.keyDownEv .keyD, .tick, .keyDownEv .keyD]).keys.up = true ∧
    (run1 [.keyDownEv .keyD, .tick, .keyDownEv .keyD]).speed = 7/2 ∧
    (run1 [.keyDownEv .keyD, .tick, .keyDownEv .keyD, .tick]).speed = 7 ∧
    (run1 [.keyDownEv .keyD, .tick, .keyDownEv .keyD, .tick, .tick]).speed = 21/2 ∧
    (run1 [.keyDownEv .keyD, .tick, .keyDownEv .keyD, .keyUpEv .arrowUp]).keys.up = false ∧
    (run1 [.keyDownEv .keyD, .tick, .keyDownEv .keyD, .keyUpEv .arrowUp, .tick]).speed = 3/2 := by
  norm_num [run1, stepEv, keyDown1, keyUp1, tick1, effKeys1, demoAI1, speedStep1,
    steerStep1, init1, Keys.set, Keys.empty, target1, segAt1_small, track1_len,
    MAX_SPEED, ACCELERATION, BRAKING, DECEL, CENTRIFUGAL, OFFROAD_DECEL, SEGMENT_LENGTH]

/-- C1, counterexample: against "0 <= speed <= MAX_SPEED in both human and
autopilot/demo mode" — in the second engine variant's demo mode the
accelerate arm `s.speed += ACCELERATION` has no `MAX_SPEED` clamp: from
speed 448 on the start-line segment (curvature 0, so the demo target is
`MAX_SPEED = 450` and `448 < 450` selects the accelerate arm) one tick
stores speed `448 + 3.2 = 451.2 > MAX_SPEED`.  Speed 448 is reachable: it
is the human-mode value after 140 held-throttle ticks from rest, and demo
laps repeatedly pass the start line at near-max speed. -/
theorem C1_speed_counterexample :
    ¬ ((tick2 (⟨0, 448, 0, none, 161000, true, Keys.empty, 0, 0⟩ : Eng2)).speed ≤ MAX_SPEED2) := by
  norm_num [tick2, curveAt2_zero, SEGMENT_LENGTH2, MAX_SPEED2, ACCELERATION2,
    BRAKING2, CENTRIFUGAL2, OFFROAD_DECEL2]

/-- C1 (amended): under every event sequence (key presses, releases, demo
toggles and frame ticks) variant 1 keeps `0 ≤ speed ≤ MAX_SPEED`, in human
and demo mode alike, and resolves sustained simultaneous accelerate+brake
by a net-braking precedence.  Variant 2's human mode also keeps
`0 ≤ speed ≤ MAX_SPEED`; its demo mode keeps speed nonnegative but only
bounded by `MAX_SPEED + ACCELERATION`, transiently exceeding `MAX_SPEED`
by less than one acceleration increment. -/
theorem C1_speed_bounds_amended :
    (∀ evs : List Ev, 0 ≤ (run1 evs).speed ∧ (run1 evs).speed ≤ MAX_SPEED) ∧
    (∀ e : Eng1, e.demo = false → e.keys.up = true → e.keys.down = true → 0 ≤ e.speed →
      (tick1 e).speed ≤ max (e.speed - (BRAKING - ACCELERATION)) 0) ∧
    (∀ e : Eng2, e.demo = false → 0 ≤ e.speed → e.speed ≤ MAX_SPEED2 →
      0 ≤ (tick2 e).speed ∧ (tick2 e).speed ≤ MAX_SPEED2) ∧
    (∀ e : Eng2, 0 ≤ e.speed → e.speed ≤ MAX_SPEED2 + ACCELERATION2 →
      0 ≤ (tick2 e).speed ∧ (tick2 e).speed ≤ MAX_SPEED2 + ACCELERATION2) := by
  refine ⟨?_, ?_, fun e hd h0 h1 => tick2_speed_human hd h0 h1,
    fun e h0 h1 => tick2_speed_general h0 h1⟩
  · intro evs
    obtain ⟨h0, h1, _⟩ := inv1_run evs
    exact ⟨h0, h1⟩
  · intro e hd hu hdn h0
    have hk : effKeys1 e = e.keys := by simp [effKeys1, hd]
    have hsp3 : speedStep1 (effKeys1 e).up (effKeys1 e).down e.speed =
        max (min (e.speed + ACCELERATION) MAX_SPEED - BRAKING) 0 := by
      rw [hk, hu, hdn]
      simp [speedStep1]
    have hnet : max (min (e.speed + ACCELERATION) MAX_SPEED - BRAKING) 0 ≤
        max (e.speed - (BRAKING - ACCELERATION)) 0 := by
      apply max_le _ (le_max_right _ _)
      apply le_max_of_le_left
      have := min_le_left (e.speed + ACCELERATION) MAX_SPEED
      linarith
    have h3 : (0:ℚ) ≤ max (min (e.speed + ACCELERATION) MAX_SPEED - BRAKING) 0 :=
      le_max_right _ _
    rw [tick1_speed_eq]
    simp only [hsp3]
    split_ifs
    · calc max (min (e.speed + ACCELERATION) MAX_SPEED - BRAKING) 0 * OFFROAD_DECEL
          ≤ max (min (e.speed + ACCELERATION) MAX_SPEED - BRAKING) 0 * 1 := by
            apply mul_le_mul_of_nonneg_left _ h3
            norm_num [OFFROAD_DECEL]
        _ ≤ max (e.speed - (BRAKING - ACCELERATION)) 0 := by rw [mul_one]; exact hnet
    · exact hnet

/-- C1, witness: the bounds applied on an empty run, on a concrete
simultaneous-input state, and on concrete variant-2 states. -/
theorem C1_speed_bounds_witness :
    (0 ≤ (run1 []).speed ∧ (run1 []).speed ≤ MAX_SPEED) ∧
    (tick1 (⟨0, 100, 0, none, false, false, 94800, 0, ⟨true, true, false, false, false, false⟩, 0, 0, []⟩ : Eng1)).speed ≤
      max ((100:ℚ) - (BRAKING - ACCELERATION)) 0 ∧
    (0 ≤ (tick2 (⟨0, 300, 0, none, 161000, false, Keys.empty, 0, 0⟩ : Eng2)).speed) ∧
    ((tick2 (⟨0, 300, 0, none, 161000, true, Keys.empty, 0, 0⟩ : Eng2)).speed ≤ MAX_SPEED2 + ACCELERATION2) :=
  ⟨C1_speed_bounds_amended.1 [],
   C1_speed_bounds_amended.2.1 _ rfl rfl rfl (by norm_num),
   (C1_speed_bounds_amended.2.2.1 _ rfl (by norm_num)
     (by norm_num [MAX_SPEED2])).1,
   (C1_speed_bounds_amended.2.2.2 _ (by norm_num)
     (by norm_num [MAX_SPEED2, ACCELERATION2])).2⟩

/-- C3, counterexample: against "lap-complete fires including the boundary
case where position lands exactly on trackLength" — variant 2 wraps with a
strict `>` test, so a tick whose advance lands exactly on `trackLength`
(position 160550 plus the clamped full speed 450 on the 161000-unit track)
fires no lap event and leaves `position = trackLength` unreduced. -/
theorem C3_boundary_counterexample :
    (tick2 (⟨160550, 450, 0, none, 161000, false, ⟨true, false, false, false, false, false⟩, 0, 0⟩ : Eng2)).lapCount = 0 ∧
    (tick2 (⟨160550, 450, 0, none, 161000, false, ⟨true, false, false, false, false, false⟩, 0, 0⟩ : Eng2)).position = 161000 := by
  have hf : ⌊(160550 : ℝ) / SEGMENT_LENGTH2⌋ = 802 := by
    rw [SEGMENT_LENGTH2, Int.floor_eq_iff]
    norm_num
  have hmin : min ((450:ℝ) + ACCELERATION2) MAX_SPEED2 = 450 := by
    rw [min_eq_right] <;> norm_num [ACCELERATION2, MAX_SPEED2]
  have ht : Int.toNat 802 % 805 = 802 := by decide
  norm_num [tick2, hf, numSegs2_val, ht, curveAt2_802, Keys.empty,
    SEGMENT_LENGTH2, MAX_SPEED2, ACCELERATION2, BRAKING2, CENTRIFUGAL2,
    OFFROAD_DECEL2, hmin]

/-- C3 (amended): in variant 1, the lap callback fires exactly once per
full traversal — the cumulative lap count always equals
`⌊totalDistance / trackLength⌋` — the wrap test is inclusive (`>=`), the
boundary landing on exactly `trackLength` fires the event and resets the
position to 0, and a wrap reduces the position by exactly `trackLength`.
In variant 2 the wrap test is strict (`>`): landing exactly on
`trackLength` fires no event that tick and leaves the position at
`trackLength`. -/
theorem C3_lap_amended :
    (∀ evs : List Ev,
      ((run1 evs).lapCount : ℚ) * trackLen1 + (run1 evs).position = (run1 evs).dist ∧
      ((run1 evs).lapCount : ℤ) = ⌊(run1 evs).dist / trackLen1⌋) ∧
    (∀ e : Eng1, e.position + (tick1 e).speed = e.trackLength →
      (tick1 e).lapCount = e.lapCount + 1 ∧ (tick1 e).position = 0) ∧
    (∀ e : Eng1, e.position + (tick1 e).speed ≥ e.trackLength →
      (tick1 e).lapCount = e.lapCount + 1 ∧
      (tick1 e).position = e.position + (tick1 e).speed - e.trackLength) ∧
    (∀ e : Eng2, e.position + (tick2 e).speed = e.trackLength →
      (tick2 e).lapCount = e.lapCount ∧ (tick2 e).position = e.trackLength) := by
  refine ⟨?_, ?_, ?_, fun e h => tick2_exact_landing h⟩
  · intro evs
    obtain ⟨h0, h1, hp0, hp1, htl, hacc⟩ := inv1_run evs
    refine ⟨hacc, ?_⟩
    have hL : (0:ℚ) < trackLen1 := by rw [trackLen1_val]; norm_num
    symm
    rw [Int.floor_eq_iff]
    constructor
    · rw [le_div_iff hL]
      push_cast
      linarith
    · rw [div_lt_iff hL]
      push_cast
      linarith
  · intro e h
    have hw : e.position + (tick1 e).speed ≥ e.trackLength := le_of_eq h.symm
    refine ⟨by rw [tick1_lapCount_eq, if_pos hw], ?_⟩
    rw [tick1_position_eq]
    simp only [if_pos hw, h]
    simp
  · intro e hw
    refine ⟨by rw [tick1_lapCount_eq, if_pos hw], ?_⟩
    rw [tick1_position_eq]
    simp only [if_pos hw]
    rw [if_neg]
    linarith [hw]

/-- C3, witness: a concrete variant-1 tick that lands exactly on the track
length: from position 94797 at speed 5 with no key held, passive
deceleration gives tick speed 3 and the advance reaches exactly 94800. -/
theorem C3_lap_witness :
    ((run1 []).lapCount : ℚ) * trackLen1 + (run1 []).position = (run1 []).dist ∧
    (tick1 (⟨94797, 5, 0, none, false, false, 94800, 0, Keys.empty, 3, 0, []⟩ : Eng1)).lapCount = 4 ∧
    (tick1 (⟨94797, 5, 0, none, false, false, 94800, 0, Keys.empty, 3, 0, []⟩ : Eng1)).position = 0 := by
  have hsp : (tick1 (⟨94797, 5, 0, none, false, false, 94800, 0, Keys.empty, 3, 0, []⟩ : Eng1) : Eng1).speed = 3 := by
    rw [tick1_speed_eq]
    norm_num [effKeys1, speedStep1, steerStep1, segAt1_94797, Keys.empty,
      MAX_SPEED, ACCELERATION, BRAKING, DECEL, CENTRIFUGAL, OFFROAD_DECEL]
  have h := C3_lap_amended.2.1
    (⟨94797, 5, 0, none, false, false, 94800, 0, Keys.empty, 3, 0, []⟩ : Eng1)
    (by rw [hsp]; norm_num)
  exact ⟨(C3_lap_amended.1 []).1, h.1, h.2⟩

/-- C5, counterexample: against "position lies in [0, trackLength) after
every tick" — in variant 2 a tick that lands exactly on `trackLength`
(coasting from position 160552.5 at speed 450, passive deceleration 2.5
gives an advance of 447.5) leaves `position = trackLength`, outside the
half-open interval. -/
theorem C5_position_counterexample :
    ¬ ((tick2 (⟨321105/2, 450, 0, none, 161000, false, Keys.empty, 0, 0⟩ : Eng2)).position <
      (tick2 (⟨321105/2, 450, 0, none, 161000, false, Keys.empty, 0, 0⟩ : Eng2)).trackLength) := by
  have hf : ⌊(321105/2 : ℝ) / SEGMENT_LENGTH2⌋ = 802 := by
    rw [SEGMENT_LENGTH2, Int.floor_eq_iff]
    norm_num
  have hmax : max ((450:ℝ) - DECEL2) 0 = 895/2 := by
    rw [max_eq_left] <;> norm_num [DECEL2]
  have ht : Int.toNat 802 % 805 = 802 := by decide
  norm_num [tick2, hf, numSegs2_val, ht, curveAt2_802, Keys.empty,
    SEGMENT_LENGTH2, MAX_SPEED2, ACCELERATION2, BRAKING2, DECEL2, CENTRIFUGAL2,
    OFFROAD_DECEL2, hmax]

/-- C5 (amended): the variant-1 track length is exactly
`segmentCount * SEGMENT_LENGTH` (474 segments), it never changes during a
run, and under every event sequence the position stays in
`[0, trackLength)`.  In variant 2 the same holds except at the strict
boundary: the position stays in the closed interval `[0, trackLength]` and
can momentarily equal `trackLength` when a tick lands exactly on it. -/
theorem C5_position_amended :
    trackLen1 = (track1.length : ℚ) * SEGMENT_LENGTH ∧
    track1.length = 474 ∧
    (∀ evs : List Ev, (run1 evs).trackLength = trackLen1) ∧
    (∀ evs : List Ev, 0 ≤ (run1 evs).position ∧ (run1 evs).position < trackLen1) ∧
    (∀ e : Eng2, 0 ≤ e.speed → e.speed ≤ MAX_SPEED2 + ACCELERATION2 →
      0 ≤ e.position → e.position ≤ e.trackLength →
      MAX_SPEED2 + ACCELERATION2 ≤ e.trackLength →
      0 ≤ (tick2 e).position ∧ (tick2 e).position ≤ e.trackLength) := by
  refine ⟨rfl, track1_len, ?_, ?_, fun e h0 h1 hp0 hp1 hL =>
    tick2_position_bounds h0 h1 hp0 hp1 hL⟩
  · intro evs
    exact (inv1_run evs).2.2.2.2.1
  · intro evs
    obtain ⟨_, _, hp0, hp1, _, _⟩ := inv1_run evs
    exact ⟨hp0, hp1⟩

/-- C4: in variant 2's `buildTrack`, every corner zone's segment curvature
follows `peakCurvature * sin(t * π)` at relative position `t = i / len`;
the formula vanishes at both parameter boundaries `t = 0` and `t = 1` (so
the first segment of every zone has curvature exactly 0), attains its peak
`peakCurvature` at the zone midpoint `t = 1/2` and never exceeds it in
magnitude, and at every interior segment the curvature's sign matches the
sign of the zone's configured peak (positive = right, negative = left). -/
theorem C4_curvature_ramp :
    ∀ z ∈ TRACK_ZONES, z.type = .corner →
      (∀ i : ℕ, i < z.len.toNat →
        zoneCurve z i = curveFormula (z.curve : ℝ) ((i : ℝ) / (z.len : ℝ))) ∧
      zoneCurve z 0 = 0 ∧
      curveFormula (z.curve : ℝ) 0 = 0 ∧
      curveFormula (z.curve : ℝ) 1 = 0 ∧
      curveFormula (z.curve : ℝ) (1/2) = (z.curve : ℝ) ∧
      (∀ t : ℝ, |curveFormula (z.curve : ℝ) t| ≤ |(z.curve : ℝ)|) ∧
      (∀ i : ℕ, 0 < i → i < z.len.toNat →
        (0 < z.curve → 0 < zoneCurve z i) ∧ (z.curve < 0 → zoneCurve z i < 0)) := by
  intro z _ hc
  have hform : ∀ i : ℕ, zoneCurve z i = curveFormula (z.curve : ℝ) ((i : ℝ) / (z.len : ℝ)) := by
    intro i
    simp [zoneCurve, hc, curveFormula]
  have hmid : curveFormula (z.curve : ℝ) (1/2) = (z.curve : ℝ) := by
    rw [curveFormula, show (1/2 : ℝ) * Real.pi = Real.pi / 2 by ring,
      Real.sin_pi_div_two, mul_one]
  have hsin : ∀ i : ℕ, 0 < i → i < z.len.toNat →
      0 < Real.sin ((i : ℝ) / (z.len : ℝ) * Real.pi) := by
    intro i hi0 hi1
    have hlenz : 0 < z.len := by omega
    have hlen : (0:ℝ) < (z.len : ℝ) := by exact_mod_cast hlenz
    have hiz : (i : ℤ) < z.len := by omega
    have hir : (i : ℝ) < (z.len : ℝ) := by exact_mod_cast hiz
    have hi0r : (0:ℝ) < (i : ℝ) := by exact_mod_cast hi0
    have ht0 : 0 < (i : ℝ) / (z.len : ℝ) := div_pos hi0r hlen
    have ht1 : (i : ℝ) / (z.len : ℝ) < 1 := (div_lt_one hlen).mpr hir
    apply Real.sin_pos_of_pos_of_lt_pi
    · exact mul_pos ht0 Real.pi_pos
    · calc (i : ℝ) / (z.len : ℝ) * Real.pi < 1 * Real.pi :=
          mul_lt_mul_of_pos_right ht1 Real.pi_pos
        _ = Real.pi := one_mul _
  refine ⟨fun i _ => hform i, ?_, ?_, ?_, hmid, ?_, ?_⟩
  · rw [hform 0]
    simp [curveFormula]
  · simp [curveFormula]
  · simp [curveFormula, Real.sin_pi]
  · intro t
    rw [curveFormula, abs_mul]
    calc |(z.curve : ℝ)| * |Real.sin (t * Real.pi)| ≤ |(z.curve : ℝ)| * 1 :=
        mul_le_mul_of_nonneg_left (Real.abs_sin_le_one _) (abs_nonneg _)
      _ = |(z.curve : ℝ)| := mul_one _
  · intro i hi0 hi1
    have hs := hsin i hi0 hi1
    rw [hform i, curveFormula]
    constructor
    · intro hpos
      have : (0:ℝ) < (z.curve : ℝ) := by exact_mod_cast hpos
      exact mul_pos this hs
    · intro hneg
      have : (z.curve : ℝ) < 0 := by exact_mod_cast hneg
      exact mul_neg_of_neg_of_pos this hs

/-- C4, witness: the ramp of T1 (peak curvature 1.6 over 35 segments):
zero at the entry segment and strictly positive (rightward) one segment
in. -/
theorem C4_curvature_witness :
    zoneCurve ⟨.corner, 35, 8/5, some 1⟩ 0 = 0 ∧
    0 < zoneCurve ⟨.corner, 35, 8/5, some 1⟩ 1 := by
  have h := C4_curvature_ramp ⟨.corner, 35, 8/5, some 1⟩ (by simp [TRACK_ZONES]) rfl
  exact ⟨h.2.1, (h.2.2.2.2.2.2 1 (by norm_num) (by decide)).1 (by norm_num)⟩

/-- C6, counterexample: against "running track construction and scenery
population twice yields identical placement lists, with no unseeded
randomness" — variant 2's object pass calls the unseeded `Math.random()`
for every tree's side and offset jitter, so two runs whose ambient random
streams differ (constantly 0 versus constantly 0.6) already disagree on
the start-line segment's tree placement. -/
theorem C6_scenery_counterexample :
    placements (fun _ => 0) ≠ placements (fun _ => (3/5 : ℚ)) :=
  placements_ne

/-- C6 (amended): variant 1's `buildScenery` reads no random source, so
running it twice on the same track yields identical placements whatever
the ambient random stream does; variant 2's populated placements are not
deterministic across runs, as tree sides, tree offsets (and skid marks)
consume the unseeded `Math.random()`. -/
theorem C6_scenery_amended :
    (∀ (r r' : ℕ → ℚ) (segs : List Seg1), buildScenery1 r segs = buildScenery1 r' segs) ∧
    ¬ (∀ r r' : ℕ → ℚ, placements r = placements r') := by
  refine ⟨fun r r' segs => rfl, fun h => placements_ne (h _ _)⟩

/-- C7, counterexample: against "track construction fails iff the zone
list is empty or some zone length <= 0" — `buildTrack` performs no
validation at all: on the empty zone list it silently returns the empty
segment list (construction does not fail), and the very first frame-loop
segment lookup then comes back empty (in JavaScript
`segments[NaN].curve` throws during the frame loop, not at startup). -/
theorem C7_construction_counterexample :
    buildTrack2At [] (fun _ => 0) = [] ∧ segAt2At [] (fun _ => 0) 0 = none := by
  constructor
  · rw [buildTrack2At]
    simp [buildZones, populateSegs]
  · rw [segAt2At, buildTrack2At]
    simp [buildZones, populateSegs]

/-- C7 (amended): variant 2's track construction is total and performs no
validation: for every zone list (empty, negative or zero lengths included)
it returns a segment list whose length is the sum of the positive zone
lengths.  For every non-empty zone list with all lengths positive the
built track is non-empty and every frame-loop segment lookup succeeds;
with an invalid zone list the failure surfaces at the frame loop's segment
lookup instead of at startup. -/
theorem C7_construction_amended :
    (∀ (zones : List Zone) (rand : ℕ → ℚ),
      (buildTrack2At zones rand).length = numSegs zones) ∧
    (∀ (zones : List Zone) (rand : ℕ → ℚ), zones ≠ [] → (∀ z ∈ zones, 0 < z.len) →
      ∀ p : ℝ, (segAt2At zones rand p).isSome = true) := by
  refine ⟨buildTrack2At_length, ?_⟩
  intro zones rand hne hpos p
  have hlen : 0 < numSegs zones := by
    obtain ⟨z, rest, rfl⟩ : ∃ z rest, zones = z :: rest := by
      cases zones with
      | nil => exact absurd rfl hne
      | cons z rest => exact ⟨z, rest, rfl⟩
    have hz : 0 < z.len := hpos z (List.mem_cons_self z rest)
    have : 0 < z.len.toNat := by omega
    rw [numSegs_cons]
    omega
  rw [segAt2At]
  have hidx : (Int.toNat ⌊p / SEGMENT_LENGTH2⌋) % numSegs zones <
      (buildTrack2At zones rand).length := by
    rw [buildTrack2At_length]
    exact Nat.mod_lt _ hlen
  rw [List.get?_eq_get hidx]
  rfl

/-- C7, witness: on the real zone table (non-empty, all lengths positive)
the start-line lookup succeeds. -/
theorem C7_construction_witness :
    (segAt2At TRACK_ZONES (fun _ => 0) 0).isSome = true :=
  C7_construction_amended.2 TRACK_ZONES (fun _ => 0) (by decide) (by decide) 0

/-- C5, witness: the invariants applied on a concrete run and a concrete
variant-2 state. -/
theorem C5_position_witness :
    (0 ≤ (run1 [Ev.tick]).position ∧ (run1 [Ev.tick]).position < trackLen1) ∧
    (0 ≤ (tick2 (⟨100, 200, 0, none, 161000, false, Keys.empty, 0, 0⟩ : Eng2)).position) :=
  ⟨C5_position_amended.2.2.2.1 [Ev.tick],
   (C5_position_amended.2.2.2.2 _ (by norm_num)
     (by norm_num [MAX_SPEED2, ACCELERATION2]) (by norm_num) (by norm_num)
     (by norm_num [MAX_SPEED2, ACCELERATION2])).1⟩

/-- C2: during one full lap of the variant-1 track at any fixed speed
`0 < v ≤ MAX_SPEED`, the corner-entered emission of `_update` (recompute
the corner id from the segment now under the vehicle; emit iff it changed
from the previous tick to a non-null value) fires exactly once per
distinct corner zone, in track order 1,2,...,12, never repeating while the
vehicle stays inside the same zone. -/
theorem C2_corner_events (v : ℚ) (hv0 : 0 < v) (hvM : v ≤ MAX_SPEED) :
    (scanFixed v (lapTicks v)).2.2 = [1, 2, 3, 4, 5, 6, 7, 8, 9, 10, 11, 12] := by
  have hv440 : v ≤ 440 := by simpa [MAX_SPEED] using hvM
  set N := lapTicks v with hN
  obtain ⟨-, -, hlog⟩ := scanFixed_spec hv0 N le_rfl
  rw [hlog]
  have hNv : (94800 : ℚ) ≤ (N : ℚ) * v := by
    have h1 := (lapTicks_le_iff hv0 N).mp le_rfl
    rw [trackLen1_val] at h1
    exact h1
  have hc : ∀ j, 0 ≤ j → j < N → cAt v j = zFind zones1 ((j : ℚ) * v) := by
    intro j _ hj
    have hjv0 : (0:ℚ) ≤ (j : ℚ) * v := mul_nonneg (Nat.cast_nonneg j) hv0.le
    have hjvlt : (j : ℚ) * v < trackLen1 := by
      by_contra hcon
      push_neg at hcon
      have h2 := (lapTicks_le_iff hv0 j).mpr hcon
      omega
    exact segAt1_corner hjv0 hjvlt
  have hzok : ZonesOK v ((N : ℚ) * v) zones1 := by
    rw [zones1_explicit]
    simp only [ZonesOK]
    repeat' apply And.intro
    all_goals first | trivial | (norm_num; done) | linarith
  have hmain := events_chain hv0 N (cAt v) zones1 0 none (Nat.zero_le N) hc hzok
    (by rw [zones1_explicit]; exact ⟨by push_cast; linarith, by simp⟩)
  rw [Nat.sub_zero] at hmain
  rw [hmain, zones1_explicit]
  norm_num

/-- C2, witness: the full-lap scan at fixed speed 440 emits exactly the
corner ids 1 through 12 in order. -/
theorem C2_corner_witness :
    (scanFixed 440 (lapTicks 440)).2.2 = [1, 2, 3, 4, 5, 6, 7, 8, 9, 10, 11, 12] :=
  C2_corner_events 440 (by norm_num) (by norm_num [MAX_SPEED])

end Ride
